import Mathlib

/-!
Verification development for the CIA Reading Room metadata fetcher
(`script/cia_fetchmetadata.py`).

The crawl orchestrator in `main` is deterministic once the sequence of
network responses is fixed, so it is embedded as a fuel-indexed state
machine driven by an oracle `Nat → NetResult` (one oracle index per
network call: the page GET, the challenge-verification POST, the replay
GET).  The run emits a trace of `Event`s — network calls, sleeps, debug
dumps, and checkpoint commits — so that claims about call counts,
retries and committed state can be stated over the trace.

The HTML field extraction (`extract_document_urls`) and pagination
detection (`check_for_next_page`) are BeautifulSoup wrappers; they are
treated as abstract collaborators (functions passed into the run),
exactly as the specification scopes them out of the core.  String-level
operations that the core itself performs (substring containment,
lowercasing, the interstitial regexes, length thresholds) are embedded
faithfully over `String`/`List Char`.
-/

/-- Whitespace class matched by the regex escape used in
`parse_akamai_interstitial` (ASCII range). -/
def isWs (c : Char) : Bool :=
  c == ' ' || c == '\t' || c == '\n' || c == '\r' || c == '\x0b' || c == '\x0c'

/-- Does the second list start with the first one?  Building block for
Python's substring containment operator. -/
def beginsWith : List Char → List Char → Bool
  | [], _ => true
  | _ :: _, [] => false
  | c :: cs, d :: ds => c == d && beginsWith cs ds

/-- Python's `needle in haystack` on strings: some position of the
haystack starts with the needle. -/
def containsSub (needle : List Char) : List Char → Bool
  | [] => beginsWith needle []
  | d :: ds => beginsWith needle (d :: ds) || containsSub needle ds

/-- Python truthiness of a string: non-empty. -/
def strNonEmpty (s : String) : Bool :=
  !s.data.isEmpty

/-- Model of `'unavailable' in response.text.lower()`
(cia_fetchmetadata.py line 388). -/
def hasUnavailable (s : String) : Bool :=
  containsSub "unavailable".data (s.data.map Char.toLower)

/-- Model of the timeout test on a caught exception message:
`'context deadline exceeded' in err_msg or 'timeout' in err_msg.lower()`
(cia_fetchmetadata.py line 545). -/
def isTimeoutMsg (m : String) : Bool :=
  containsSub "context deadline exceeded".data m.data ||
    containsSub "timeout".data (m.data.map Char.toLower)

/-- Value of a digit string (most significant first). -/
def digitsVal (acc : Nat) : List Char → Nat
  | [] => acc
  | c :: cs => digitsVal (acc * 10 + (c.toNat - '0'.toNat)) cs

/-- Drop an expected literal from the front of a list, or fail. -/
def stripLead : List Char → List Char → Option (List Char)
  | [], rest => some rest
  | _ :: _, [] => none
  | c :: cs, d :: ds => if c == d then stripLead cs ds else none

/-- Match the regex `var\s+i\s*=\s*(\d+)\s*;` at the start of the list,
returning the captured number (cia_fetchmetadata.py line 131).  The
character classes after each greedy part are disjoint from it, so greedy
matching is exact. -/
def matchVarIAt (cs : List Char) : Option Nat :=
  match stripLead "var".data cs with
  | none => none
  | some rest =>
    match rest with
    | [] => none
    | w :: _ =>
      if isWs w then
        match rest.dropWhile isWs with
        | 'i' :: rest2 =>
          match rest2.dropWhile isWs with
          | '=' :: rest4 =>
            let rest5 := rest4.dropWhile isWs
            let digits := rest5.takeWhile Char.isDigit
            let rest6 := rest5.dropWhile Char.isDigit
            if digits.isEmpty then none
            else
              match rest6.dropWhile isWs with
              | ';' :: _ => some (digitsVal 0 digits)
              | _ => none
          | _ => none
        | _ => none
      else none

/-- Leftmost match of `var\s+i\s*=\s*(\d+)\s*;`, as `re.search` does. -/
def findVarI : List Char → Option Nat
  | [] => none
  | c :: rest =>
    match matchVarIAt (c :: rest) with
    | some n => some n
    | none => findVarI rest

/-- Match the regex `"bm-verify"\s*:\s*"([^"]+)"` at the start of the
list, returning the captured token (cia_fetchmetadata.py line 132). -/
def matchBmAt (cs : List Char) : Option String :=
  match stripLead "\"bm-verify\"".data cs with
  | none => none
  | some rest =>
    match rest.dropWhile isWs with
    | ':' :: rest2 =>
      match rest2.dropWhile isWs with
      | '"' :: rest4 =>
        let tok := rest4.takeWhile (fun c => !(c == '"'))
        let rest5 := rest4.dropWhile (fun c => !(c == '"'))
        if tok.isEmpty then none
        else
          match rest5 with
          | '"' :: _ => some (String.mk tok)
          | _ => none
      | _ => none
    | _ => none

/-- Leftmost match of `"bm-verify"\s*:\s*"([^"]+)"`. -/
def findBm : List Char → Option String
  | [] => none
  | c :: rest =>
    match matchBmAt (c :: rest) with
    | some t => some t
    | none => findBm rest

/-- The constant added to the embedded seed:
`Number("9026" + "45594")` (cia_fetchmetadata.py line 136). -/
def FIXED_OFFSET : Nat := 902645594

/-- `parse_akamai_interstitial` (cia_fetchmetadata.py lines 124-137):
returns the `bm-verify` token and `i + 902645594` when the page carries
the challenge markers and both regexes match, otherwise nothing
(Python's `(None, None)`). -/
def parse_akamai_interstitial (html : String) : Option (String × Nat) :=
  if containsSub "_sec/verify".data html.data && containsSub "bm-verify".data html.data then
    match findVarI html.data, findBm html.data with
    | some i, some bm => some (bm, i + FIXED_OFFSET)
    | _, _ => none
  else none

/-- One extracted search result: `{'url': ..., 'title': ...}`. -/
structure DocumentRecord where
  url : String
  title : String
  deriving DecidableEq, Repr

/-- Result of one network call: a response (status, `Location` header,
body text) or a raised exception with its message. -/
inductive NetResult where
  | resp (status : Nat) (location : Option String) (text : String)
  | exc (msg : String)

/-- A committed progress snapshot: the fields of the written
`.progress.json` that carry crawl state (`last_page`,
`pages_scraped` — stored sorted — and `all_urls`). -/
structure Checkpoint where
  lastPage : Int
  pagesScraped : List Int
  allUrls : List DocumentRecord
  deriving DecidableEq, Repr

/-- Observable actions of a run, in order: network calls, sleeps, debug
artifact writes, and checkpoint commits (the paired
`write_jsonl` + progress-file dump). -/
inductive Event where
  | getPage (page : Int)
  | verifyPost (token : String) (pow : Nat)
  | replayGet
  | sleepUnavailable
  | sleepDelay
  | writeDebug (page : Int) (body : String)
  | commit (cp : Checkpoint)
  deriving DecidableEq, Repr

/-- State loaded from a prior progress file by `load_existing_output`. -/
structure Progress where
  lastPage : Int
  pagesScraped : List Int
  allUrls : List DocumentRecord

/-- `solve_akamai_interstitial` (cia_fetchmetadata.py lines 140-165).
Consumes up to two oracle indices (the verification POST, then the
replay GET).  Returns `(newText, solved)` plus the next oracle index and
the emitted network events.  A parse failure returns the challenge
unchanged without any network call; an exception from either call
returns the challenge unchanged; otherwise the replay text is returned
with `solved = (len > 10000)`. -/
def solve_akamai_interstitial (challenge : String) (oracle : Nat → NetResult) (k : Nat) :
    (String × Bool) × Nat × List Event :=
  match parse_akamai_interstitial challenge with
  | none => ((challenge, false), k, [])
  | some (bm, powj) =>
    match oracle k with
    | .exc _ => ((challenge, false), k + 1, [.verifyPost bm powj])
    | .resp _ _ _ =>
      match oracle (k + 1) with
      | .exc _ => ((challenge, false), k + 2, [.verifyPost bm powj, .replayGet])
      | .resp _ _ t3 =>
        ((t3, decide (t3.length > 10000)), k + 2, [.verifyPost bm powj, .replayGet])

/-- Membership test for page numbers (Python's `page in pages_scraped`). -/
def memI (x : Int) : List Int → Bool
  | [] => false
  | y :: ys => x == y || memI x ys

/-- Insert into a sorted list (ascending). -/
def insertSorted (x : Int) : List Int → List Int
  | [] => [x]
  | y :: ys => if x ≤ y then x :: y :: ys else y :: insertSorted x ys

/-- Python's `sorted(pages_scraped)`, used for every commit. -/
def insSort : List Int → List Int
  | [] => []
  | x :: xs => insertSorted x (insSort xs)

/-- Python's `max` over a non-empty list, seeded with the first element. -/
def maxFrom (x : Int) : List Int → Int
  | [] => x
  | y :: ys => maxFrom (max x y) ys

/-- The URL-dedup append (cia_fetchmetadata.py lines 481-486): each new
record is appended only when no accumulated record carries the same
`url`. -/
def dedupAppend (acc : List DocumentRecord) : List DocumentRecord → List DocumentRecord
  | [] => acc
  | u :: us =>
    if acc.any (fun x => x.url == u.url) then dedupAppend acc us
    else dedupAppend (acc ++ [u]) us

/-- No two records of the list share a `url`. -/
def urlsNodup : List DocumentRecord → Bool
  | [] => true
  | u :: us => !(us.any (fun x => x.url == u.url)) && urlsNodup us

/-- The explicit redirect status list of cia_fetchmetadata.py line 377:
`[301, 302, 303, 307, 308]`. -/
def isRedirectStatus (s : Nat) : Bool :=
  s == 301 || s == 302 || s == 303 || s == 307 || s == 308

/-- In-memory crawl state mutated by the loop in `main`: the current
page, `pages_scraped`, the page numbers recorded in
`all_results['pages']`, `all_results['all_urls']`, and the
`consecutive_empty` counter. -/
structure RunState where
  page : Int
  pagesScraped : List Int
  pageNumbers : List Int
  allUrls : List DocumentRecord
  consecutiveEmpty : Nat
  deriving DecidableEq, Repr

/-- How one attempt of the per-page retry loop ends: retry the same page
(after the unavailable wait), stop the whole search
(`stop_search = True`), fail the run (`request_failed` left `True`), or
proceed to the next page. -/
inductive AttemptRes where
  | retry (st : RunState)
  | stopRun (st : RunState)
  | fatalRun (st : RunState)
  | nextPage (st : RunState)
  deriving DecidableEq, Repr

/-- The state carried by an attempt result. -/
def AttemptRes.state : AttemptRes → RunState
  | .retry st => st
  | .stopRun st => st
  | .fatalRun st => st
  | .nextPage st => st

/-- Per-run configuration: retry budget, optional page cap, the resolved
start page (the cap in `main` is `page >= start_page + max_pages`), and
the two abstract BeautifulSoup collaborators `extract_document_urls`
and `check_for_next_page`. -/
structure Config where
  maxRetries : Nat
  maxPages : Option Int
  startPage : Int
  extract : String → List DocumentRecord
  hasNextPage : String → Bool

/-- The `max_pages` guard (cia_fetchmetadata.py line 344):
`args.max_pages and page >= (start_page + args.max_pages)` — a value of
0 is falsy in Python and means no limit. -/
def maxPagesReached (cfg : Config) (page : Int) : Bool :=
  match cfg.maxPages with
  | none => false
  | some m => !(m == 0) && decide (cfg.startPage + m ≤ page)

/-- Storing one successfully classified page (cia_fetchmetadata.py lines
464-523): record the page unless its number is already present, append
its items with URL dedup, commit `.jsonl` + `.progress.json` with
`last_page = page` and the sorted `pages_scraped`, then stop on a clean
end of results (no pager and at least one item) or advance after the
inter-request delay. -/
def storePhase (cfg : Config) (st : RunState) (k : Nat) (text : String)
    (items : List DocumentRecord) (pre : List Event) : AttemptRes × Nat × List Event :=
  if memI st.page st.pageNumbers then
    (.nextPage { st with page := st.page + 1 }, k, pre)
  else
    let st2 : RunState :=
      { st with pageNumbers := st.pageNumbers ++ [st.page],
                pagesScraped := st.pagesScraped ++ [st.page],
                allUrls := dedupAppend st.allUrls items }
    let cp : Checkpoint := ⟨st.page, insSort st2.pagesScraped, st2.allUrls⟩
    if !cfg.hasNextPage text && !items.isEmpty then
      (.stopRun st2, k, pre ++ [.commit cp])
    else
      (.nextPage { st2 with page := st.page + 1 }, k, pre ++ [.commit cp, .sleepDelay])

/-- Extraction and the empty-page heuristic (cia_fetchmetadata.py lines
440-458): zero extracted items bumps `consecutive_empty` (dumping very
large bodies for inspection) and stops the run at two in a row; at
least one item resets the counter; both otherwise fall through to
`storePhase`. -/
def processBody (cfg : Config) (st : RunState) (k : Nat) (text : String) :
    AttemptRes × Nat × List Event :=
  let items := cfg.extract text
  if items.isEmpty then
    let st' := { st with consecutiveEmpty := st.consecutiveEmpty + 1 }
    let pre : List Event := if text.length > 50000 then [.writeDebug st.page text] else []
    if st'.consecutiveEmpty ≥ 2 then (.stopRun st', k, pre)
    else storePhase cfg st' k text items pre
  else
    storePhase cfg { st with consecutiveEmpty := 0 } k text items []

/-- The undersized-body gate (cia_fetchmetadata.py lines 428-437): a
body under 10000 bytes at this point is treated as probable bot
protection — the raw body is dumped and the search stops. -/
def sizeGate (cfg : Config) (st : RunState) (k : Nat) (text : String) :
    AttemptRes × Nat × List Event :=
  if text.length < 10000 then (.stopRun st, k, [.writeDebug st.page text])
  else processBody cfg st k text

/-- Challenge fallback (cia_fetchmetadata.py lines 410-426): when the
body is small and parses as the interstitial, invoke the solver; on
success re-enter the size gate with the solved body, on failure dump
the returned body and stop; otherwise enter the size gate directly. -/
def afterStatus (cfg : Config) (st : RunState) (oracle : Nat → NetResult) (k : Nat)
    (text : String) : AttemptRes × Nat × List Event :=
  if decide (text.length < 10000) && (parse_akamai_interstitial text).isSome then
    match solve_akamai_interstitial text oracle k with
    | ((t2, true), k2, evs2) =>
      match sizeGate cfg st k2 t2 with
      | (a, k3, evs3) => (a, k3, evs2 ++ evs3)
    | ((t2, false), k2, evs2) => (.stopRun st, k2, evs2 ++ [.writeDebug st.page t2])
  else
    sizeGate cfg st k text

/-- One attempt of the per-page retry loop (cia_fetchmetadata.py lines
369-559): fetch the page, then in order — a listed redirect status
stops the search; 503 or an `unavailable` body sleeps and retries;
`raise_for_status` turns other 4xx/5xx into a non-timeout exception
(fatal); a timeout-classified exception sleeps and retries; anything
else proceeds to challenge/size/extraction handling. -/
def attemptOnce (cfg : Config) (st : RunState) (oracle : Nat → NetResult) (k : Nat) :
    AttemptRes × Nat × List Event :=
  match oracle k with
  | .exc msg =>
    if isTimeoutMsg msg then (.retry st, k + 1, [.getPage st.page, .sleepUnavailable])
    else (.fatalRun st, k + 1, [.getPage st.page])
  | .resp status _loc text =>
    if isRedirectStatus status then (.stopRun st, k + 1, [.getPage st.page])
    else if status == 503 || (strNonEmpty text && hasUnavailable text) then
      (.retry st, k + 1, [.getPage st.page, .sleepUnavailable])
    else if decide (400 ≤ status) && decide (status < 600) then
      (.fatalRun st, k + 1, [.getPage st.page])
    else
      match afterStatus cfg st oracle (k + 1) text with
      | (a, k', evs) => (a, k', .getPage st.page :: evs)

/-- `for attempt in range(args.max_retries)` (cia_fetchmetadata.py line
369): run attempts while they ask to retry; an exhausted budget leaves
`request_failed = True`, a fatal stop for the run. -/
def attemptLoop (cfg : Config) (oracle : Nat → NetResult) :
    Nat → RunState → Nat → AttemptRes × Nat × List Event
  | 0, st, k => (.fatalRun st, k, [])
  | n + 1, st, k =>
    match attemptOnce cfg st oracle k with
    | (.retry st', k', evs) =>
      let r := attemptLoop cfg oracle n st' k'
      (r.1, r.2.1, evs ++ r.2.2)
    | other => other

/-- The outer page loop (cia_fetchmetadata.py lines 342-562), indexed by
fuel (`none` = fuel exhausted before the run terminated): check the
`max_pages` cap, skip pages already scraped without any network call,
otherwise run the per-page attempt loop and continue on `nextPage`;
`stopRun`/`fatalRun` break the loop. -/
def runLoop (cfg : Config) (oracle : Nat → NetResult) :
    Nat → RunState → Nat → Option (RunState × Nat × List Event)
  | 0, _, _ => none
  | fuel + 1, st, k =>
    if maxPagesReached cfg st.page then some (st, k, [])
    else if memI st.page st.pagesScraped then
      runLoop cfg oracle fuel { st with page := st.page + 1 } k
    else
      match attemptLoop cfg oracle cfg.maxRetries st k with
      | (.nextPage st', k', evs) =>
        match runLoop cfg oracle fuel st' k' with
        | none => none
        | some (st'', k'', evs') => some (st'', k'', evs ++ evs')
      | (r, k', evs) => some (r.state, k', evs)

/-- Resolution of the starting state (cia_fetchmetadata.py lines
263-278, 322-336): `--reset` discards loaded state and starts at the
explicit start page or 0; a loaded progress file resumes at
`last_page + 1` (unless a start page is given) with its
`pages_scraped`, page records and `all_urls`; otherwise start fresh. -/
def initRun (reset : Bool) (startArg : Option Int) (loaded : Option Progress) : RunState :=
  if reset then ⟨startArg.getD 0, [], [], [], 0⟩
  else
    match loaded with
    | some p => ⟨startArg.getD (p.lastPage + 1), p.pagesScraped, p.pagesScraped, p.allUrls, 0⟩
    | none => ⟨startArg.getD 0, [], [], [], 0⟩

/-- The final save (cia_fetchmetadata.py lines 567-583):
`last_page = max(pages_scraped) if pages_scraped else (page - 1)`, with
the sorted `pages_scraped` and the accumulated `all_urls`. -/
def finalCheckpoint (st : RunState) : Checkpoint :=
  ⟨match st.pagesScraped with
    | [] => st.page - 1
    | x :: xs => maxFrom x xs,
   insSort st.pagesScraped, st.allUrls⟩

/-- The command-line parameters of `main` that drive the control flow. -/
structure Args where
  maxRetries : Nat
  maxPages : Option Int
  startPage : Option Int
  reset : Bool

/-- A whole run of `main`'s crawl loop: resolve the start state, run the
page loop, and append the final save's commit to the trace. -/
def runMain (args : Args) (extract : String → List DocumentRecord)
    (hasNext : String → Bool) (loaded : Option Progress)
    (oracle : Nat → NetResult) (fuel : Nat) : Option (RunState × List Event) :=
  let st0 := initRun args.reset args.startPage loaded
  let cfg : Config := ⟨args.maxRetries, args.maxPages, st0.page, extract, hasNext⟩
  match runLoop cfg oracle fuel st0 0 with
  | none => none
  | some (st, _, evs) => some (st, evs ++ [.commit (finalCheckpoint st)])

/-- The checkpoints committed along a trace, in order. -/
def commitsOf : List Event → List Checkpoint
  | [] => []
  | .commit c :: es => c :: commitsOf es
  | _ :: es => commitsOf es

/-- `output_filename = search_term.upper().replace(' ', '_')`
(cia_fetchmetadata.py line 257); the storage key for every artifact of
a crawl.  `Char.toUpper` models Python's `str.upper` on the ASCII
range. -/
def output_filename (searchTerm : String) : String :=
  String.mk ((searchTerm.data.map Char.toUpper).map (fun c => if c == ' ' then '_' else c))

/-- `get_progress_path` (cia_fetchmetadata.py lines 190-192), with POSIX
`os.path.join`. -/
def get_progress_path (outputDir fname : String) : String :=
  outputDir ++ "/" ++ fname ++ ".progress.json"

/-- The JSONL output path of `main` (cia_fetchmetadata.py line 258). -/
def jsonl_path (outputDir fname : String) : String :=
  outputDir ++ "/" ++ fname ++ ".jsonl"

/-- The debug artifact path (cia_fetchmetadata.py line 420/431). -/
def debug_page_path (outputDir : String) (page : Int) (fname : String) : String :=
  outputDir ++ "/" ++ "debug_page_" ++ toString page ++ "_" ++ fname ++ ".html"

/-- A string of `n` copies of one character: the shape of every
synthetic large body used in concrete runs (facts about it are proved
by induction instead of kernel evaluation). -/
def repStr (n : Nat) (c : Char) : String := String.mk (List.replicate n c)

/-- Ordering between committed checkpoints: the scraped-page set only
grows and the committed `last_page` does not decrease. -/
def cpLE (c1 c2 : Checkpoint) : Prop :=
  (∀ x, x ∈ c1.pagesScraped → x ∈ c2.pagesScraped) ∧ c1.lastPage ≤ c2.lastPage

/-- Shape of the state/commit evolution of one attempt (or attempt
loop) relative to its incoming state: the page advances by at most one,
and either nothing durable changes and nothing is committed, or the
current page is appended to `pages_scraped`, the extracted items are
dedup-merged into `all_urls`, and exactly that snapshot is committed. -/
def StepSpec (st : RunState) (r : AttemptRes × Nat × List Event) : Prop :=
  (r.1.state.page = st.page ∨ r.1.state.page = st.page + 1) ∧
  ((r.1.state.pagesScraped = st.pagesScraped ∧ r.1.state.allUrls = st.allUrls ∧
      commitsOf r.2.2 = []) ∨
   (∃ items, r.1.state.pagesScraped = st.pagesScraped ++ [st.page] ∧
      r.1.state.allUrls = dedupAppend st.allUrls items ∧
      commitsOf r.2.2 =
        [⟨st.page, insSort (st.pagesScraped ++ [st.page]), dedupAppend st.allUrls items⟩]))

/-- Trace of `n` consecutive rate-limited/timeout attempts on one page:
each one is a fetch followed by the `unavailable_wait` sleep. -/
def retryTrace (p : Int) : Nat → List Event
  | 0 => []
  | n + 1 => .getPage p :: .sleepUnavailable :: retryTrace p n

/-- Network results that the per-page loop retries: a response that is
not one of the listed redirect statuses but is a 503 or carries the
`unavailable` marker, or an exception classified as a timeout. -/
def isRetryNet : NetResult → Bool
  | .resp s _ t => !isRedirectStatus s && (s == 503 || (strNonEmpty t && hasUnavailable t))
  | .exc m => isTimeoutMsg m

/-- Sample records used by the concrete runs. -/
def recU0 : DocumentRecord := ⟨"u0", "t0"⟩

/-- Second sample record. -/
def recU1 : DocumentRecord := ⟨"u1", "t1"⟩

/-- A synthetic real-content body: 10001 bytes, no markers. -/
def bodyA : String := repStr 10001 'a'

/-- Concrete extractor: full-size bodies yield one new and one already
recorded document, anything else yields nothing. -/
def exA : String → List DocumentRecord :=
  fun s => if s.length == 10001 then [recU1, recU0] else []

/-- Concrete pagination detector: never a next page. -/
def hnA : String → Bool := fun _ => false

/-- Oracle: every fetch succeeds with the full-size body. -/
def orA : Nat → NetResult := fun _ => .resp 200 none bodyA

/-- A loaded checkpoint: `last_page` 0, page 1 already scraped, one
record already present. -/
def loadA : Progress := ⟨0, [1], [recU0]⟩

/-- Resume arguments: one retry, no page cap, no explicit start, no
reset. -/
def argsA : Args := ⟨1, none, none, false⟩

/-- Final state of the resumed run: page 1 skipped, page 2 fetched and
committed, the duplicate of `recU0` dropped. -/
def stA : RunState := ⟨2, [1, 2], [1, 2], [recU0, recU1], 0⟩

/-- The snapshot committed by the resumed run. -/
def cpA : Checkpoint := ⟨2, [1, 2], [recU0, recU1]⟩

/-- Trace of the resumed run: one fetch (page 2), its commit, and the
final save. -/
def evsA : List Event := [.getPage 2, .commit cpA, .commit cpA]

/-- The resumed run itself. -/
def runA : Option (RunState × List Event) := runMain argsA exA hnA (some loadA) orA 3

/-- Oracle answering status 300 (a 3xx code the script does not treat
as a redirect) with a full-size body. -/
def or300 : Nat → NetResult := fun _ => .resp 300 none bodyA

/-- Fresh-start arguments for the status-300 run. -/
def args300 : Args := ⟨1, none, none, true⟩

/-- The status-300 run: page 0 is processed as a success. -/
def run300 : Option (RunState × List Event) := runMain args300 exA hnA none or300 2

/-- A concrete interstitial challenge body: carries the `_sec/verify`
and `bm-verify` markers, the seed 7, and the token `tok1`. -/
def chW : String := "x_sec/verify var i = 7; \"bm-verify\": \"tok1\""

/-- Oracle for a solved challenge: the verification POST answers ok,
the replay GET answers with the full-size body. -/
def orC5 : Nat → NetResult :=
  fun k => if k == 0 then .resp 200 none "ok" else .resp 200 none bodyA

/-- Oracle whose replay GET returns a body far below the threshold. -/
def orTiny : Nat → NetResult := fun _ => .resp 200 none "tiny"

/-- Oracle answering a 302 redirect with empty body. -/
def or302 : Nat → NetResult := fun _ => .resp 302 (some "login") ""

/-- Oracle answering 503 on every call. -/
def or503 : Nat → NetResult := fun _ => .resp 503 none ""

/-- Configuration with a retry budget of 2 used for the retry-exhaustion
run. -/
def cfg6 : Config := ⟨2, none, 0, exA, hnA⟩

/-- Configuration with a retry budget of 1. -/
def cfg3 : Config := ⟨1, none, 0, exA, hnA⟩

/-- Empty starting state at page 0. -/
def st0run : RunState := ⟨0, [], [], [], 0⟩

/-- Final state of the status-300 run: page 0 committed. -/
def st300 : RunState := ⟨0, [0], [0], [recU1, recU0], 0⟩

/-- The snapshot committed by the status-300 run. -/
def cp300 : Checkpoint := ⟨0, [0], [recU1, recU0]⟩

/-- Trace of the status-300 run. -/
def evs300 : List Event := [.getPage 0, .commit cp300, .commit cp300]

/-- Extractor that never finds documents. -/
def exEmpty : String → List DocumentRecord := fun _ => []

/-- Pagination detector that always reports a next page. -/
def hnTrue : String → Bool := fun _ => true

/-- Configuration used for the empty-page runs. -/
def cfgE : Config := ⟨1, none, 0, exEmpty, hnTrue⟩

-- END OF DEFINITIONS ZONE (scenario constants are added above this line)

/-! ### Helper lemmas: membership, sorting, max, dedup -/

theorem memI_iff (x : Int) : ∀ l : List Int, memI x l = true ↔ x ∈ l
  | [] => by simp [memI]
  | y :: ys => by simp [memI, memI_iff x ys, List.mem_cons]

theorem memI_append_left (x : Int) (l t : List Int) (h : memI x l = true) :
    memI x (l ++ t) = true := by
  rw [memI_iff] at h ⊢
  exact List.mem_append_left t h

theorem mem_insertSorted (x a : Int) : ∀ l, a ∈ insertSorted x l ↔ a = x ∨ a ∈ l
  | [] => by simp [insertSorted]
  | y :: ys => by
    simp only [insertSorted]
    split
    · exact List.mem_cons
    · simp [List.mem_cons, mem_insertSorted x a ys]
      tauto

theorem mem_insSort (a : Int) : ∀ l, a ∈ insSort l ↔ a ∈ l
  | [] => Iff.rfl
  | x :: xs => by
    simp [insSort, mem_insertSorted, mem_insSort a xs, List.mem_cons]

theorem le_maxFrom_base (x : Int) : ∀ l, x ≤ maxFrom x l
  | [] => le_refl x
  | y :: ys => le_trans (le_max_left x y) (le_maxFrom_base (max x y) ys)

theorem le_maxFrom_mem (a : Int) : ∀ (x : Int) (l : List Int), a ∈ l → a ≤ maxFrom x l
  | x, [], h => by simp at h
  | x, y :: ys, h => by
    rcases List.mem_cons.1 h with h | h
    · subst h
      exact le_trans (le_max_right x a) (le_maxFrom_base _ ys)
    · exact le_maxFrom_mem a (max x y) ys h

theorem urlsNodup_append_one (u : DocumentRecord) :
    ∀ acc, urlsNodup acc = true → acc.any (fun x => x.url == u.url) = false →
      urlsNodup (acc ++ [u]) = true
  | [], _, _ => by simp [urlsNodup]
  | v :: vs, h1, h2 => by
    simp only [urlsNodup, Bool.and_eq_true, Bool.not_eq_true'] at h1
    simp only [List.any_cons, Bool.or_eq_false_iff] at h2
    simp only [List.cons_append, urlsNodup, Bool.and_eq_true, Bool.not_eq_true']
    refine ⟨?_, urlsNodup_append_one u vs h1.2 h2.2⟩
    have hvu : ¬ v.url = u.url := by
      intro hh
      rw [hh] at h2
      simp at h2
    simp [List.any_append, h1.1, beq_iff_eq]
    intro hh
    exact hvu hh.symm

theorem dedupAppend_nodup :
    ∀ (l acc : List DocumentRecord), urlsNodup acc = true →
      urlsNodup (dedupAppend acc l) = true
  | [], _, h => h
  | u :: us, acc, h => by
    simp only [dedupAppend]
    split
    · exact dedupAppend_nodup us acc h
    · next hc => exact dedupAppend_nodup us _ (urlsNodup_append_one u acc h (Bool.eq_false_iff.2 hc))

theorem dedupAppend_skip (acc : List DocumentRecord) (u : DocumentRecord)
    (us : List DocumentRecord) (h : acc.any (fun x => x.url == u.url) = true) :
    dedupAppend acc (u :: us) = dedupAppend acc us := by
  simp [dedupAppend, h]

theorem commitsOf_append : ∀ a b : List Event, commitsOf (a ++ b) = commitsOf a ++ commitsOf b
  | [], _ => rfl
  | e :: es, b => by cases e <;> simp [commitsOf, commitsOf_append es b]

/-! ### Characteristic lemmas for synthetic large bodies

Bodies above the 10000-byte threshold are modelled as
`repStr n c` (a string of `n` copies of `c`); their classification
facts are proved by induction instead of kernel evaluation. -/

theorem repStr_length (n : Nat) (c : Char) : (repStr n c).length = n := by
  show (List.replicate n c).length = n
  rw [List.length_replicate]

theorem beginsWith_cons_ne (c d : Char) (cs ds : List Char) (h : ¬ c = d) :
    beginsWith (c :: cs) (d :: ds) = false := by
  simp [beginsWith, h]

theorem containsSub_replicate (c a : Char) (cs : List Char) (h : ¬ c = a) :
    ∀ n, containsSub (c :: cs) (List.replicate n a) = false := by
  intro n
  induction n with
  | zero => simp [containsSub, beginsWith]
  | succ n ih =>
      simp [List.replicate, containsSub, ih, beginsWith_cons_ne c a cs (List.replicate n a) h]

theorem hasUnavailable_repStr (n : Nat) (c : Char) (h : ¬ 'u' = c.toLower) :
    hasUnavailable (repStr n c) = false := by
  show containsSub "unavailable".data ((List.replicate n c).map Char.toLower) = false
  rw [List.map_replicate]
  have e : "unavailable".data = 'u' :: "navailable".data := rfl
  rw [e]
  exact containsSub_replicate _ _ _ h n

theorem strNonEmpty_repStr (n : Nat) (c : Char) : strNonEmpty (repStr n c) = !(n == 0) := by
  cases n with
  | zero => rfl
  | succ m => simp [strNonEmpty, repStr, List.replicate_succ]

theorem parse_repStr (n : Nat) (c : Char) (h : ¬ '_' = c) :
    parse_akamai_interstitial (repStr n c) = none := by
  unfold parse_akamai_interstitial
  have h1 : containsSub "_sec/verify".data (repStr n c).data = false := by
    show containsSub "_sec/verify".data (List.replicate n c) = false
    have e : "_sec/verify".data = '_' :: "sec/verify".data := rfl
    rw [e]
    exact containsSub_replicate _ _ _ h n
  rw [h1]
  simp

/-! ### Characterization of one attempt -/

theorem commitsOf_pre (p : Prop) [Decidable p] (pg : Int) (t : String) :
    commitsOf (if p then [Event.writeDebug pg t] else []) = [] := by
  split <;> rfl

theorem storePhase_spec (cfg : Config) (st : RunState) (k : Nat) (text : String)
    (items : List DocumentRecord) (pre : List Event) (hpre : commitsOf pre = []) :
    StepSpec st (storePhase cfg st k text items pre) ∧
    (∀ s', (storePhase cfg st k text items pre).1 ≠ .retry s') := by
  unfold storePhase StepSpec
  split
  · exact ⟨⟨Or.inr rfl, Or.inl ⟨rfl, rfl, hpre⟩⟩, fun s' h => by cases h⟩
  · split
    · refine ⟨⟨Or.inl rfl, Or.inr ⟨items, rfl, rfl, ?_⟩⟩, fun s' h => by cases h⟩
      rw [commitsOf_append, hpre]
      rfl
    · refine ⟨⟨Or.inr rfl, Or.inr ⟨items, rfl, rfl, ?_⟩⟩, fun s' h => by cases h⟩
      rw [commitsOf_append, hpre]
      rfl

theorem processBody_spec (cfg : Config) (st : RunState) (k : Nat) (text : String) :
    StepSpec st (processBody cfg st k text) ∧
    (∀ s', (processBody cfg st k text).1 ≠ .retry s') := by
  unfold processBody
  dsimp only
  split
  · split
    · exact ⟨⟨Or.inl rfl, Or.inl ⟨rfl, rfl, commitsOf_pre _ _ _⟩⟩, fun s' h => by cases h⟩
    · exact storePhase_spec cfg _ k text _ _ (commitsOf_pre _ _ _)
  · exact storePhase_spec cfg _ k text _ [] rfl

theorem sizeGate_spec (cfg : Config) (st : RunState) (k : Nat) (text : String) :
    StepSpec st (sizeGate cfg st k text) ∧
    (∀ s', (sizeGate cfg st k text).1 ≠ .retry s') := by
  unfold sizeGate
  split
  · exact ⟨⟨Or.inl rfl, Or.inl ⟨rfl, rfl, rfl⟩⟩, fun s' h => by cases h⟩
  · exact processBody_spec cfg st k text

theorem solve_no_commit (text : String) (oracle : Nat → NetResult) (k : Nat) :
    commitsOf (solve_akamai_interstitial text oracle k).2.2 = [] := by
  unfold solve_akamai_interstitial
  rcases parse_akamai_interstitial text with _ | ⟨bm, powj⟩
  · rfl
  · rcases oracle k with ⟨s1, l1, t1⟩ | m1
    · rcases oracle (k + 1) with ⟨s2, l2, t2⟩ | m2 <;> rfl
    · rfl

theorem afterStatus_spec (cfg : Config) (st : RunState) (oracle : Nat → NetResult)
    (k : Nat) (text : String) :
    StepSpec st (afterStatus cfg st oracle k text) ∧
    (∀ s', (afterStatus cfg st oracle k text).1 ≠ .retry s') := by
  unfold afterStatus
  split
  · have hnc := solve_no_commit text oracle k
    rcases hs : solve_akamai_interstitial text oracle k with ⟨⟨t2, sl⟩, k2, evs2⟩
    rw [hs] at hnc
    dsimp only at hnc
    cases sl
    · dsimp only
      exact ⟨⟨Or.inl rfl, Or.inl ⟨rfl, rfl, by rw [commitsOf_append, hnc]; rfl⟩⟩,
        fun s' h => by cases h⟩
    · have h1 := sizeGate_spec cfg st k2 t2
      rcases hg : sizeGate cfg st k2 t2 with ⟨a, k3, evs3⟩
      rw [hg] at h1
      dsimp only
      rw [hg]
      dsimp only at h1 ⊢
      unfold StepSpec at h1 ⊢
      dsimp only at h1 ⊢
      refine ⟨⟨h1.1.1, ?_⟩, fun s' => h1.2 s'⟩
      rcases h1.1.2 with ⟨hp, hu, hc⟩ | ⟨items, hp, hu, hc⟩
      · exact Or.inl ⟨hp, hu, by rw [commitsOf_append, hnc, hc]; rfl⟩
      · exact Or.inr ⟨items, hp, hu, by rw [commitsOf_append, hnc, hc]; rfl⟩
  · exact sizeGate_spec cfg st k text

theorem commitsOf_getPage (p : Int) (evs : List Event) :
    commitsOf (.getPage p :: evs) = commitsOf evs := rfl

theorem attemptOnce_spec (cfg : Config) (st : RunState) (oracle : Nat → NetResult) (k : Nat) :
    StepSpec st (attemptOnce cfg st oracle k) ∧
    (∀ s', (attemptOnce cfg st oracle k).1 = .retry s' →
      s' = st ∧ (attemptOnce cfg st oracle k).2.2 = [.getPage st.page, .sleepUnavailable]) := by
  unfold attemptOnce
  rcases oracle k with ⟨status, loc, text⟩ | msg
  · dsimp only
    split
    · exact ⟨⟨Or.inl rfl, Or.inl ⟨rfl, rfl, rfl⟩⟩, fun s' h => nomatch h⟩
    · split
      · refine ⟨⟨Or.inl rfl, Or.inl ⟨rfl, rfl, rfl⟩⟩, fun s' h => ?_⟩
        simp only [AttemptRes.retry.injEq] at h
        exact ⟨h.symm, rfl⟩
      · split
        · exact ⟨⟨Or.inl rfl, Or.inl ⟨rfl, rfl, rfl⟩⟩, fun s' h => nomatch h⟩
        · have h1 := afterStatus_spec cfg st oracle (k + 1) text
          rcases ha : afterStatus cfg st oracle (k + 1) text with ⟨a, k2, evs2⟩
          rw [ha] at h1
          dsimp only
          refine ⟨⟨h1.1.1, ?_⟩, fun s' h => absurd h (h1.2 s')⟩
          rcases h1.1.2 with ⟨hp, hu, hc⟩ | ⟨items, hp, hu, hc⟩
          · exact Or.inl ⟨hp, hu, by dsimp only at hc ⊢; rw [commitsOf_getPage, hc]⟩
          · exact Or.inr ⟨items, hp, hu, by dsimp only at hc ⊢; rw [commitsOf_getPage, hc]⟩
  · dsimp only
    split
    · refine ⟨⟨Or.inl rfl, Or.inl ⟨rfl, rfl, rfl⟩⟩, fun s' h => ?_⟩
      simp only [AttemptRes.retry.injEq] at h
      exact ⟨h.symm, rfl⟩
    · exact ⟨⟨Or.inl rfl, Or.inl ⟨rfl, rfl, rfl⟩⟩, fun s' h => nomatch h⟩

theorem attemptLoop_spec (cfg : Config) (oracle : Nat → NetResult) :
    ∀ (n : Nat) (st : RunState) (k : Nat), StepSpec st (attemptLoop cfg oracle n st k)
  | 0, st, k => ⟨Or.inl rfl, Or.inl ⟨rfl, rfl, rfl⟩⟩
  | n + 1, st, k => by
    have h1 := attemptOnce_spec cfg st oracle k
    unfold attemptLoop
    rcases hao : attemptOnce cfg st oracle k with ⟨a, k1, evs1⟩
    rw [hao] at h1
    cases a with
    | retry st1 =>
      obtain ⟨hst, hev⟩ := h1.2 st1 rfl
      subst hst
      dsimp only at hev
      have h2 := attemptLoop_spec cfg oracle n st1 k1
      rcases hal : attemptLoop cfg oracle n st1 k1 with ⟨b, k2, evs2⟩
      rw [hal] at h2
      dsimp only
      rw [hal]
      dsimp only at h2 ⊢
      refine ⟨h2.1, ?_⟩
      have hce : commitsOf (evs1 ++ evs2) = commitsOf evs2 := by
        rw [hev, commitsOf_append]
        rfl
      rcases h2.2 with ⟨hp, hu, hc⟩ | ⟨items, hp, hu, hc⟩
      · exact Or.inl ⟨hp, hu, by rw [hce, hc]⟩
      · exact Or.inr ⟨items, hp, hu, by rw [hce, hc]⟩
    | stopRun st1 => exact h1.1
    | fatalRun st1 => exact h1.1
    | nextPage st1 => exact h1.1

/-! ### No stray page fetches: only the current page is ever fetched -/

theorem solve_no_getPage (q : Int) (text : String) (oracle : Nat → NetResult) (k : Nat) :
    Event.getPage q ∉ (solve_akamai_interstitial text oracle k).2.2 := by
  unfold solve_akamai_interstitial
  rcases parse_akamai_interstitial text with _ | ⟨bm, powj⟩
  · simp
  · rcases oracle k with ⟨s1, l1, t1⟩ | m1
    · rcases oracle (k + 1) with ⟨s2, l2, t2⟩ | m2 <;> simp
    · simp

theorem pre_no_getPage (q : Int) (p : Prop) [Decidable p] (pg : Int) (t : String) :
    Event.getPage q ∉ (if p then [Event.writeDebug pg t] else []) := by
  split <;> simp

theorem storePhase_no_getPage (cfg : Config) (st : RunState) (k : Nat) (text : String)
    (items : List DocumentRecord) (pre : List Event) (q : Int)
    (hpre : Event.getPage q ∉ pre) :
    Event.getPage q ∉ (storePhase cfg st k text items pre).2.2 := by
  unfold storePhase
  split
  · exact hpre
  · split <;> simp [List.mem_append, hpre]

theorem processBody_no_getPage (cfg : Config) (st : RunState) (k : Nat) (text : String)
    (q : Int) : Event.getPage q ∉ (processBody cfg st k text).2.2 := by
  unfold processBody
  dsimp only
  split
  · split
    · exact pre_no_getPage q _ _ _
    · exact storePhase_no_getPage cfg _ k text _ _ q (pre_no_getPage q _ _ _)
  · exact storePhase_no_getPage cfg _ k text _ [] q (by simp)

theorem sizeGate_no_getPage (cfg : Config) (st : RunState) (k : Nat) (text : String)
    (q : Int) : Event.getPage q ∉ (sizeGate cfg st k text).2.2 := by
  unfold sizeGate
  split
  · simp
  · exact processBody_no_getPage cfg st k text q

theorem afterStatus_no_getPage (cfg : Config) (st : RunState) (oracle : Nat → NetResult)
    (k : Nat) (text : String) (q : Int) :
    Event.getPage q ∉ (afterStatus cfg st oracle k text).2.2 := by
  unfold afterStatus
  split
  · have hns := solve_no_getPage q text oracle k
    rcases hs : solve_akamai_interstitial text oracle k with ⟨⟨t2, sl⟩, k2, evs2⟩
    rw [hs] at hns
    dsimp only at hns
    cases sl
    · dsimp only
      simp only [List.mem_append]
      rintro (h | h)
      · exact hns h
      · simp at h
    · have hng := sizeGate_no_getPage cfg st k2 t2 q
      rcases hg : sizeGate cfg st k2 t2 with ⟨a, k3, evs3⟩
      rw [hg] at hng
      dsimp only
      rw [hg]
      dsimp only at hng ⊢
      simp only [List.mem_append]
      rintro (h | h)
      · exact hns h
      · exact hng h
  · exact sizeGate_no_getPage cfg st k text q

theorem attemptOnce_getPage (cfg : Config) (st : RunState) (oracle : Nat → NetResult)
    (k : Nat) (q : Int) (h : Event.getPage q ∈ (attemptOnce cfg st oracle k).2.2) :
    q = st.page := by
  unfold attemptOnce at h
  rcases ho : oracle k with ⟨status, loc, text⟩ | msg
  all_goals rw [ho] at h
  · dsimp only at h
    split at h
    · simpa using h
    · split at h
      · simpa using h
      · split at h
        · simpa using h
        · have hna := afterStatus_no_getPage cfg st oracle (k + 1) text q
          rcases List.mem_cons.1 h with h | h
          · injection h with h
          · exact absurd h hna
  · dsimp only at h
    split at h
    · simpa using h
    · simpa using h

theorem attemptLoop_getPage (cfg : Config) (oracle : Nat → NetResult) :
    ∀ (n : Nat) (st : RunState) (k : Nat) (q : Int),
      Event.getPage q ∈ (attemptLoop cfg oracle n st k).2.2 → q = st.page
  | 0, st, k, q, h => by simp [attemptLoop] at h
  | n + 1, st, k, q, h => by
    have h1 := attemptOnce_spec cfg st oracle k
    have h0 : ∀ hh : Event.getPage q ∈ (attemptOnce cfg st oracle k).2.2, q = st.page :=
      fun hh => attemptOnce_getPage cfg st oracle k q hh
    unfold attemptLoop at h
    rcases hao : attemptOnce cfg st oracle k with ⟨a, k1, evs1⟩
    rw [hao] at h h1 h0
    cases a with
    | retry st1 =>
      obtain ⟨hst, _⟩ := h1.2 st1 rfl
      subst hst
      dsimp only at h
      rcases hal : attemptLoop cfg oracle n st1 k1 with ⟨b, k2, evs2⟩
      rw [hal] at h
      dsimp only at h
      rcases List.mem_append.1 h with h | h
      · exact h0 h
      · have := attemptLoop_getPage cfg oracle n st1 k1 q
        rw [hal] at this
        exact this h
    | stopRun st1 => exact h0 h
    | fatalRun st1 => exact h0 h
    | nextPage st1 => exact h0 h

/-! ### Run-level invariants -/

theorem runLoop_no_getPage (cfg : Config) (oracle : Nat → NetResult) :
    ∀ (fuel : Nat) (st : RunState) (k : Nat) (st' : RunState) (k' : Nat) (evs : List Event)
      (q : Int), runLoop cfg oracle fuel st k = some (st', k', evs) →
      memI q st.pagesScraped = true → Event.getPage q ∉ evs
  | 0, st, k, st', k', evs, q, h, hq => by simp [runLoop] at h
  | fuel + 1, st, k, st', k', evs, q, h, hq => by
    unfold runLoop at h
    split at h
    · simp only [Option.some.injEq, Prod.mk.injEq] at h
      obtain ⟨h1, h2, h3⟩ := h
      subst h3
      simp
    · split at h
      · exact runLoop_no_getPage cfg oracle fuel _ k st' k' evs q h hq
      · next hmem =>
        have hq_ne : q ≠ st.page := fun hqp => hmem (hqp ▸ hq)
        have hsp := attemptLoop_spec cfg oracle cfg.maxRetries st k
        have hgp := attemptLoop_getPage cfg oracle cfg.maxRetries st k q
        rcases hal : attemptLoop cfg oracle cfg.maxRetries st k with ⟨a, k1, evs1⟩
        rw [hal] at h hsp
        have hnot1 : Event.getPage q ∉ evs1 := by
          intro hin
          refine hq_ne (hgp ?_)
          rw [hal]
          exact hin
        unfold StepSpec at hsp
        cases a with
        | nextPage st1 =>
          dsimp only at h hsp
          rcases hrl : runLoop cfg oracle fuel st1 k1 with _ | ⟨st2, k2, evs2⟩
          · rw [hrl] at h
            exact absurd h (by simp)
          · rw [hrl] at h
            simp only [Option.some.injEq, Prod.mk.injEq] at h
            obtain ⟨h1, h2, h3⟩ := h
            subst h3
            have hq1 : memI q st1.pagesScraped = true := by
              rcases hsp.2 with ⟨hp, _, _⟩ | ⟨items, hp, _, _⟩
              · have hp2 : st1.pagesScraped = st.pagesScraped := hp
                rw [hp2]
                exact hq
              · have hp2 : st1.pagesScraped = st.pagesScraped ++ [st.page] := hp
                rw [hp2]
                exact memI_append_left q _ _ hq
            have hrec := runLoop_no_getPage cfg oracle fuel st1 k1 st2 k2 evs2 q hrl hq1
            simp only [List.mem_append]
            rintro (hin | hin)
            · exact hnot1 hin
            · exact hrec hin
        | retry st1 =>
          dsimp only at h
          simp only [Option.some.injEq, Prod.mk.injEq] at h
          obtain ⟨h1, h2, h3⟩ := h
          subst h3
          exact hnot1
        | stopRun st1 =>
          dsimp only at h
          simp only [Option.some.injEq, Prod.mk.injEq] at h
          obtain ⟨h1, h2, h3⟩ := h
          subst h3
          exact hnot1
        | fatalRun st1 =>
          dsimp only at h
          simp only [Option.some.injEq, Prod.mk.injEq] at h
          obtain ⟨h1, h2, h3⟩ := h
          subst h3
          exact hnot1

theorem runLoop_nodup (cfg : Config) (oracle : Nat → NetResult) :
    ∀ (fuel : Nat) (st : RunState) (k : Nat) (st' : RunState) (k' : Nat) (evs : List Event),
      runLoop cfg oracle fuel st k = some (st', k', evs) →
      urlsNodup st.allUrls = true →
      urlsNodup st'.allUrls = true ∧ ∀ c ∈ commitsOf evs, urlsNodup c.allUrls = true
  | 0, st, k, st', k', evs, h, hnd => by simp [runLoop] at h
  | fuel + 1, st, k, st', k', evs, h, hnd => by
    unfold runLoop at h
    split at h
    · simp only [Option.some.injEq, Prod.mk.injEq] at h
      obtain ⟨h1, h2, h3⟩ := h
      subst h1 h3
      exact ⟨hnd, fun c hcm => absurd hcm (by simp [commitsOf])⟩
    · split at h
      · exact runLoop_nodup cfg oracle fuel _ k st' k' evs h hnd
      · have hsp := attemptLoop_spec cfg oracle cfg.maxRetries st k
        rcases hal : attemptLoop cfg oracle cfg.maxRetries st k with ⟨a, k1, evs1⟩
        rw [hal] at h hsp
        unfold StepSpec at hsp
        have key : urlsNodup a.state.allUrls = true ∧
            ∀ c ∈ commitsOf evs1, urlsNodup c.allUrls = true := by
          rcases hsp.2 with ⟨_, hu, hc⟩ | ⟨items, _, hu, hc⟩
          · rw [hu, hc]
            exact ⟨hnd, by simp⟩
          · rw [hu, hc]
            refine ⟨dedupAppend_nodup items st.allUrls hnd, ?_⟩
            intro c hcm
            rcases List.mem_singleton.1 hcm with rfl
            exact dedupAppend_nodup items st.allUrls hnd
        cases a with
        | nextPage st1 =>
          dsimp only at h
          rcases hrl : runLoop cfg oracle fuel st1 k1 with _ | ⟨st2, k2, evs2⟩
          · rw [hrl] at h
            exact absurd h (by simp)
          · rw [hrl] at h
            simp only [Option.some.injEq, Prod.mk.injEq] at h
            obtain ⟨h1, h2, h3⟩ := h
            subst h1 h3
            have hrec := runLoop_nodup cfg oracle fuel st1 k1 st2 k2 evs2 hrl key.1
            refine ⟨hrec.1, ?_⟩
            intro c hcm
            rw [commitsOf_append] at hcm
            rcases List.mem_append.1 hcm with hcm | hcm
            · exact key.2 c hcm
            · exact hrec.2 c hcm
        | retry st1 =>
          simp only [Option.some.injEq, Prod.mk.injEq] at h
          obtain ⟨h1, h2, h3⟩ := h
          subst h1 h3
          exact ⟨key.1, key.2⟩
        | stopRun st1 =>
          simp only [Option.some.injEq, Prod.mk.injEq] at h
          obtain ⟨h1, h2, h3⟩ := h
          subst h1 h3
          exact ⟨key.1, key.2⟩
        | fatalRun st1 =>
          simp only [Option.some.injEq, Prod.mk.injEq] at h
          obtain ⟨h1, h2, h3⟩ := h
          subst h1 h3
          exact ⟨key.1, key.2⟩

theorem runLoop_commits (cfg : Config) (oracle : Nat → NetResult) :
    ∀ (fuel : Nat) (st : RunState) (k : Nat) (st' : RunState) (k' : Nat) (evs : List Event),
      runLoop cfg oracle fuel st k = some (st', k', evs) →
      (∀ x, x ∈ st.pagesScraped → x ∈ st'.pagesScraped) ∧
      st.page ≤ st'.page ∧
      List.Pairwise cpLE (commitsOf evs) ∧
      (∀ c ∈ commitsOf evs,
        (∀ x, x ∈ st.pagesScraped → x ∈ c.pagesScraped) ∧
        (∀ x, x ∈ c.pagesScraped → x ∈ st'.pagesScraped) ∧
        st.page ≤ c.lastPage ∧ c.lastPage ∈ c.pagesScraped)
  | 0, st, k, st', k', evs, h => by simp [runLoop] at h
  | fuel + 1, st, k, st', k', evs, h => by
    unfold runLoop at h
    split at h
    · simp only [Option.some.injEq, Prod.mk.injEq] at h
      obtain ⟨h1, h2, h3⟩ := h
      subst h1 h3
      exact ⟨fun x hx => hx, le_refl _, by simp [commitsOf],
        fun c hcm => absurd hcm (by simp [commitsOf])⟩
    · split at h
      · have ih := runLoop_commits cfg oracle fuel _ k st' k' evs h
        have hup : st.page + 1 ≤ st'.page := ih.2.1
        refine ⟨ih.1, by omega, ih.2.2.1, ?_⟩
        intro c hcm
        obtain ⟨b1, b2, b3, b4⟩ := ih.2.2.2 c hcm
        have hb3 : st.page + 1 ≤ c.lastPage := b3
        exact ⟨b1, b2, by omega, b4⟩
      · have hsp := attemptLoop_spec cfg oracle cfg.maxRetries st k
        rcases hal : attemptLoop cfg oracle cfg.maxRetries st k with ⟨a, k1, evs1⟩
        rw [hal] at h hsp
        unfold StepSpec at hsp
        obtain ⟨hpg, hdisj⟩ := hsp
        have hpgle : st.page ≤ a.state.page := by
          rcases hpg with hh | hh
          · exact le_of_eq hh.symm
          · rw [hh]
            omega
        cases a with
        | nextPage st1 =>
          dsimp only at h
          rcases hrl : runLoop cfg oracle fuel st1 k1 with _ | ⟨st2, k2, evs2⟩
          · rw [hrl] at h
            exact absurd h (by simp)
          · rw [hrl] at h
            simp only [Option.some.injEq, Prod.mk.injEq] at h
            obtain ⟨h1, h2, h3⟩ := h
            subst h1 h3
            have ih := runLoop_commits cfg oracle fuel st1 k1 st2 k2 evs2 hrl
            rw [commitsOf_append]
            rcases hdisj with ⟨hp, hu, hc⟩ | ⟨items, hp, hu, hc⟩
            · have hp2 : st1.pagesScraped = st.pagesScraped := hp
              rw [hc]
              simp only [List.nil_append]
              refine ⟨fun x hx => ih.1 x (by rw [hp2]; exact hx),
                      le_trans hpgle ih.2.1, ih.2.2.1, ?_⟩
              intro c hcm
              obtain ⟨b1, b2, b3, b4⟩ := ih.2.2.2 c hcm
              exact ⟨fun x hx => b1 x (by rw [hp2]; exact hx), b2,
                     le_trans hpgle b3, b4⟩
            · have hp2 : st1.pagesScraped = st.pagesScraped ++ [st.page] := hp
              rw [hc]
              have hmem0 : ∀ x : Int, x ∈ insSort (st.pagesScraped ++ [st.page]) ↔
                  x ∈ st.pagesScraped ++ [st.page] := fun x => mem_insSort x _
              refine ⟨?_, le_trans hpgle ih.2.1, ?_, ?_⟩
              · intro x hx
                exact ih.1 x (by rw [hp2]; exact List.mem_append_left _ hx)
              · refine List.Pairwise.cons ?_ ih.2.2.1
                intro c2 hc2
                obtain ⟨b1, b2, b3, b4⟩ := ih.2.2.2 c2 hc2
                refine ⟨?_, ?_⟩
                · intro x hx
                  exact b1 x (by rw [hp2]; exact (hmem0 x).1 hx)
                · exact le_trans hpgle b3
              · intro c hcm
                rcases List.mem_cons.1 hcm with rfl | hcm
                · refine ⟨?_, ?_, le_refl _, ?_⟩
                  · intro x hx
                    exact (hmem0 x).2 (List.mem_append_left _ hx)
                  · intro x hx
                    exact ih.1 x (by rw [hp2]; exact (hmem0 x).1 hx)
                  · exact (hmem0 _).2 (List.mem_append_right _ (List.mem_singleton.2 rfl))
                · obtain ⟨b1, b2, b3, b4⟩ := ih.2.2.2 c hcm
                  exact ⟨fun x hx => b1 x (by rw [hp2]; exact List.mem_append_left _ hx),
                         b2, le_trans hpgle b3, b4⟩
        | retry st1 =>
          simp only [Option.some.injEq, Prod.mk.injEq] at h
          obtain ⟨h1, h2, h3⟩ := h
          subst h1 h3
          rcases hdisj with ⟨hp, hu, hc⟩ | ⟨items, hp, hu, hc⟩
          · rw [hc]
            exact ⟨fun x hx => by rw [hp]; exact hx, hpgle, List.Pairwise.nil,
              fun c hcm => absurd hcm (List.not_mem_nil c)⟩
          · rw [hc]
            have hmem0 : ∀ x : Int, x ∈ insSort (st.pagesScraped ++ [st.page]) ↔
                x ∈ st.pagesScraped ++ [st.page] := fun x => mem_insSort x _
            refine ⟨fun x hx => by rw [hp]; exact List.mem_append_left _ hx, hpgle,
              List.Pairwise.cons (fun c2 hc2 => absurd hc2 (List.not_mem_nil c2))
                List.Pairwise.nil, ?_⟩
            intro c hcm
            rcases List.mem_cons.1 hcm with rfl | hcm
            · refine ⟨?_, ?_, le_refl _, ?_⟩
              · intro x hx
                exact (hmem0 x).2 (List.mem_append_left _ hx)
              · intro x hx
                rw [hp]
                exact (hmem0 x).1 hx
              · exact (hmem0 _).2 (List.mem_append_right _ (List.mem_singleton.2 rfl))
            · exact absurd hcm (List.not_mem_nil c)
        | stopRun st1 =>
          simp only [Option.some.injEq, Prod.mk.injEq] at h
          obtain ⟨h1, h2, h3⟩ := h
          subst h1 h3
          rcases hdisj with ⟨hp, hu, hc⟩ | ⟨items, hp, hu, hc⟩
          · rw [hc]
            exact ⟨fun x hx => by rw [hp]; exact hx, hpgle, List.Pairwise.nil,
              fun c hcm => absurd hcm (List.not_mem_nil c)⟩
          · rw [hc]
            have hmem0 : ∀ x : Int, x ∈ insSort (st.pagesScraped ++ [st.page]) ↔
                x ∈ st.pagesScraped ++ [st.page] := fun x => mem_insSort x _
            refine ⟨fun x hx => by rw [hp]; exact List.mem_append_left _ hx, hpgle,
              List.Pairwise.cons (fun c2 hc2 => absurd hc2 (List.not_mem_nil c2))
                List.Pairwise.nil, ?_⟩
            intro c hcm
            rcases List.mem_cons.1 hcm with rfl | hcm
            · refine ⟨?_, ?_, le_refl _, ?_⟩
              · intro x hx
                exact (hmem0 x).2 (List.mem_append_left _ hx)
              · intro x hx
                rw [hp]
                exact (hmem0 x).1 hx
              · exact (hmem0 _).2 (List.mem_append_right _ (List.mem_singleton.2 rfl))
            · exact absurd hcm (List.not_mem_nil c)
        | fatalRun st1 =>
          simp only [Option.some.injEq, Prod.mk.injEq] at h
          obtain ⟨h1, h2, h3⟩ := h
          subst h1 h3
          rcases hdisj with ⟨hp, hu, hc⟩ | ⟨items, hp, hu, hc⟩
          · rw [hc]
            exact ⟨fun x hx => by rw [hp]; exact hx, hpgle, List.Pairwise.nil,
              fun c hcm => absurd hcm (List.not_mem_nil c)⟩
          · rw [hc]
            have hmem0 : ∀ x : Int, x ∈ insSort (st.pagesScraped ++ [st.page]) ↔
                x ∈ st.pagesScraped ++ [st.page] := fun x => mem_insSort x _
            refine ⟨fun x hx => by rw [hp]; exact List.mem_append_left _ hx, hpgle,
              List.Pairwise.cons (fun c2 hc2 => absurd hc2 (List.not_mem_nil c2))
                List.Pairwise.nil, ?_⟩
            intro c hcm
            rcases List.mem_cons.1 hcm with rfl | hcm
            · refine ⟨?_, ?_, le_refl _, ?_⟩
              · intro x hx
                exact (hmem0 x).2 (List.mem_append_left _ hx)
              · intro x hx
                rw [hp]
                exact (hmem0 x).1 hx
              · exact (hmem0 _).2 (List.mem_append_right _ (List.mem_singleton.2 rfl))
            · exact absurd hcm (List.not_mem_nil c)

/-! ### Facts about the synthetic bodies and concrete runs -/

theorem bodyA_length : bodyA.length = 10001 := repStr_length 10001 'a'

theorem bodyA_hasUnavailable : hasUnavailable bodyA = false :=
  hasUnavailable_repStr 10001 'a' (by decide)

theorem bodyA_strNonEmpty : strNonEmpty bodyA = true := by
  show strNonEmpty (repStr 10001 'a') = true
  rw [strNonEmpty_repStr]
  decide

theorem bodyA_parse : parse_akamai_interstitial bodyA = none :=
  parse_repStr 10001 'a' (by decide)

/-! ### Step-by-step evaluation lemmas (avoiding deep reduction of the
synthetic bodies) -/

theorem ifBoolFalse {α : Sort u} (a b : α) : (if (false : Bool) = true then a else b) = b := rfl

theorem ifBoolTrue {α : Sort u} (a b : α) : (if (true : Bool) = true then a else b) = a := rfl

theorem afterStatus_noChallenge (cfg : Config) (st : RunState) (oracle : Nat → NetResult)
    (k : Nat) (text : String) (hp : parse_akamai_interstitial text = none) :
    afterStatus cfg st oracle k text = sizeGate cfg st k text := by
  unfold afterStatus
  rw [hp, Option.isSome_none, Bool.and_false, ifBoolFalse]

theorem sizeGate_big (cfg : Config) (st : RunState) (k : Nat) (text : String)
    (hl : ¬ text.length < 10000) :
    sizeGate cfg st k text = processBody cfg st k text := by
  unfold sizeGate
  rw [if_neg hl]

theorem processBody_items (cfg : Config) (st : RunState) (k : Nat) (text : String)
    (items : List DocumentRecord) (hitems : cfg.extract text = items)
    (hne : items.isEmpty = false) :
    processBody cfg st k text =
      storePhase cfg { st with consecutiveEmpty := 0 } k text items [] := by
  unfold processBody
  dsimp only
  rw [hitems, hne, ifBoolFalse]

theorem storePhase_commitStop (cfg : Config) (st : RunState) (k : Nat) (text : String)
    (items : List DocumentRecord) (pre : List Event)
    (hmem : memI st.page st.pageNumbers = false)
    (hnext : cfg.hasNextPage text = false)
    (hne : items.isEmpty = false) :
    storePhase cfg st k text items pre =
      (.stopRun ⟨st.page, st.pagesScraped ++ [st.page], st.pageNumbers ++ [st.page],
          dedupAppend st.allUrls items, st.consecutiveEmpty⟩, k,
        pre ++ [.commit ⟨st.page, insSort (st.pagesScraped ++ [st.page]),
          dedupAppend st.allUrls items⟩]) := by
  unfold storePhase
  rw [hmem, ifBoolFalse, hnext, hne]
  rfl

theorem attemptOnce_success (cfg : Config) (st : RunState) (oracle : Nat → NetResult)
    (k : Nat) (status : Nat) (loc : Option String) (text : String)
    (ho : oracle k = .resp status loc text)
    (h1 : isRedirectStatus status = false)
    (h2 : (status == 503 || (strNonEmpty text && hasUnavailable text)) = false)
    (h3 : (decide (400 ≤ status) && decide (status < 600)) = false) :
    attemptOnce cfg st oracle k =
      ((afterStatus cfg st oracle (k + 1) text).1,
       (afterStatus cfg st oracle (k + 1) text).2.1,
       .getPage st.page :: (afterStatus cfg st oracle (k + 1) text).2.2) := by
  unfold attemptOnce
  rw [ho]
  dsimp only
  rw [h1, ifBoolFalse, h2, ifBoolFalse, h3, ifBoolFalse]

theorem attemptLoop_firstDone (cfg : Config) (oracle : Nat → NetResult) (n : Nat)
    (st : RunState) (k : Nat) (a : AttemptRes) (k1 : Nat) (evs1 : List Event)
    (ha : attemptOnce cfg st oracle k = (a, k1, evs1))
    (hnr : ∀ s', a ≠ .retry s') :
    attemptLoop cfg oracle (n + 1) st k = (a, k1, evs1) := by
  unfold attemptLoop
  rw [ha]
  cases a with
  | retry s => exact absurd rfl (hnr s)
  | stopRun s => rfl
  | fatalRun s => rfl
  | nextPage s => rfl

theorem maxPagesReached_none (cfg : Config) (p : Int) (h : cfg.maxPages = none) :
    maxPagesReached cfg p = false := by
  unfold maxPagesReached
  rw [h]

theorem runLoop_skip (cfg : Config) (oracle : Nat → NetResult) (fuel : Nat)
    (st : RunState) (k : Nat)
    (hmax : maxPagesReached cfg st.page = false)
    (hmem : memI st.page st.pagesScraped = true) :
    runLoop cfg oracle (fuel + 1) st k =
      runLoop cfg oracle fuel { st with page := st.page + 1 } k := by
  conv_lhs => rw [runLoop]
  rw [hmax, ifBoolFalse, hmem, ifBoolTrue]

theorem runLoop_term (cfg : Config) (oracle : Nat → NetResult) (fuel : Nat)
    (st : RunState) (k : Nat) (a : AttemptRes) (k1 : Nat) (evs1 : List Event)
    (hmax : maxPagesReached cfg st.page = false)
    (hmem : memI st.page st.pagesScraped = false)
    (hal : attemptLoop cfg oracle cfg.maxRetries st k = (a, k1, evs1))
    (hna : ∀ s', a ≠ .nextPage s') :
    runLoop cfg oracle (fuel + 1) st k = some (a.state, k1, evs1) := by
  unfold runLoop
  rw [hmax, ifBoolFalse, hmem, ifBoolFalse, hal]
  cases a with
  | nextPage s => exact absurd rfl (hna s)
  | retry s => rfl
  | stopRun s => rfl
  | fatalRun s => rfl

theorem exA_bodyA : exA bodyA = [recU1, recU0] := by
  unfold exA
  rw [bodyA_length]
  rfl

theorem cond503_bodyA (status : Nat) (h2 : (status == 503) = false) :
    (status == 503 || (strNonEmpty bodyA && hasUnavailable bodyA)) = false := by
  rw [bodyA_hasUnavailable, Bool.and_false, Bool.or_false]
  exact h2

theorem afterStatus_bodyA_eval (cfg : Config) (st : RunState) (oracle : Nat → NetResult)
    (k : Nat) (hex : cfg.extract bodyA = [recU1, recU0])
    (hnx : cfg.hasNextPage bodyA = false)
    (hmem : memI st.page st.pageNumbers = false) :
    afterStatus cfg st oracle k bodyA =
      (.stopRun ⟨st.page, st.pagesScraped ++ [st.page], st.pageNumbers ++ [st.page],
          dedupAppend st.allUrls [recU1, recU0], 0⟩, k,
        [.commit ⟨st.page, insSort (st.pagesScraped ++ [st.page]),
            dedupAppend st.allUrls [recU1, recU0]⟩]) := by
  rw [afterStatus_noChallenge cfg st oracle k bodyA bodyA_parse,
      sizeGate_big cfg st k bodyA (by rw [bodyA_length]; omega),
      processBody_items cfg st k bodyA [recU1, recU0] hex rfl,
      storePhase_commitStop cfg { st with consecutiveEmpty := 0 } k bodyA [recU1, recU0] [] hmem hnx rfl]
  rfl

theorem attemptOnce_bodyA (cfg : Config) (st : RunState) (oracle : Nat → NetResult)
    (k : Nat) (status : Nat) (loc : Option String)
    (ho : oracle k = .resp status loc bodyA)
    (h1 : isRedirectStatus status = false)
    (h2 : (status == 503) = false)
    (h3 : (decide (400 ≤ status) && decide (status < 600)) = false)
    (hex : cfg.extract bodyA = [recU1, recU0])
    (hnx : cfg.hasNextPage bodyA = false)
    (hmem : memI st.page st.pageNumbers = false) :
    attemptOnce cfg st oracle k =
      (.stopRun ⟨st.page, st.pagesScraped ++ [st.page], st.pageNumbers ++ [st.page],
          dedupAppend st.allUrls [recU1, recU0], 0⟩, k + 1,
        [.getPage st.page, .commit ⟨st.page, insSort (st.pagesScraped ++ [st.page]),
            dedupAppend st.allUrls [recU1, recU0]⟩]) := by
  rw [attemptOnce_success cfg st oracle k status loc bodyA ho h1 (cond503_bodyA status h2) h3,
      afterStatus_bodyA_eval cfg st oracle (k + 1) hex hnx hmem]

theorem dedup_A : dedupAppend [recU0] [recU1, recU0] = [recU0, recU1] := by
  simp [dedupAppend, recU0, recU1]

theorem insSort_A : insSort ([1] ++ [2]) = ([1, 2] : List Int) := by
  norm_num [insSort, insertSorted]

theorem initRun_A : initRun argsA.reset argsA.startPage (some loadA) =
    (⟨1, [1], [1], [recU0], 0⟩ : RunState) := by
  norm_num [initRun, argsA, loadA]

theorem runA_loop (cfg : Config) (hmr : cfg.maxRetries = 1) (hmp : cfg.maxPages = none)
    (hex : cfg.extract bodyA = [recU1, recU0]) (hnx : cfg.hasNextPage bodyA = false) :
    runLoop cfg orA 3 ⟨1, [1], [1], [recU0], 0⟩ 0 =
      some (stA, 1, [.getPage 2, .commit cpA]) := by
  have hao := attemptOnce_bodyA cfg ⟨2, [1], [1], [recU0], 0⟩ orA 0 200 none rfl rfl rfl rfl
      hex hnx rfl
  dsimp only at hao
  rw [dedup_A, insSort_A] at hao
  have hal : attemptLoop cfg orA cfg.maxRetries ⟨2, [1], [1], [recU0], 0⟩ 0 =
      (.stopRun stA, 1, [.getPage 2, .commit cpA]) := by
    rw [hmr]
    exact attemptLoop_firstDone cfg orA 0 _ 0 _ _ _ hao (fun s' h => nomatch h)
  have hterm := runLoop_term cfg orA 1 ⟨2, [1], [1], [recU0], 0⟩ 0
      (.stopRun stA) 1 [.getPage 2, .commit cpA]
      (maxPagesReached_none cfg _ hmp) rfl hal (fun s' h => nomatch h)
  refine Eq.trans (runLoop_skip cfg orA 2 ⟨1, [1], [1], [recU0], 0⟩ 0
      (maxPagesReached_none cfg _ hmp) rfl) ?_
  exact hterm

theorem finalCheckpoint_stA : finalCheckpoint stA = cpA := by
  norm_num [finalCheckpoint, stA, cpA, maxFrom, insSort, insertSorted]

theorem runA_eval : runA = some (stA, evsA) := by
  unfold runA runMain
  dsimp only
  rw [initRun_A]
  dsimp only
  have c1 : (⟨argsA.maxRetries, argsA.maxPages, 1, exA, hnA⟩ : Config).maxRetries = 1 := rfl
  have c2 : (⟨argsA.maxRetries, argsA.maxPages, 1, exA, hnA⟩ : Config).maxPages = none := rfl
  have c3 : (⟨argsA.maxRetries, argsA.maxPages, 1, exA, hnA⟩ : Config).extract bodyA = [recU1, recU0] := by
    dsimp only
    exact exA_bodyA
  have c4 : (⟨argsA.maxRetries, argsA.maxPages, 1, exA, hnA⟩ : Config).hasNextPage bodyA = false := rfl
  have hr := runA_loop ⟨argsA.maxRetries, argsA.maxPages, 1, exA, hnA⟩ c1 c2 c3 c4
  rw [hr]
  dsimp only
  rw [finalCheckpoint_stA]
  rfl

theorem dedup_300 : dedupAppend [] [recU1, recU0] = [recU1, recU0] := by
  simp [dedupAppend, recU0, recU1]

theorem insSort_300 : insSort (([] : List Int) ++ [0]) = ([0] : List Int) := by
  norm_num [insSort, insertSorted]

theorem initRun_300 : initRun args300.reset args300.startPage none =
    (⟨0, [], [], [], 0⟩ : RunState) := by
  norm_num [initRun, args300]

theorem finalCheckpoint_st300 : finalCheckpoint st300 = cp300 := by
  norm_num [finalCheckpoint, st300, cp300, maxFrom, insSort, insertSorted]

theorem run300_eval : run300 = some (st300, evs300) := by
  unfold run300 runMain
  dsimp only
  rw [initRun_300]
  dsimp only
  have c1 : (⟨args300.maxRetries, args300.maxPages, 0, exA, hnA⟩ : Config).maxRetries = 1 := rfl
  have c2 : (⟨args300.maxRetries, args300.maxPages, 0, exA, hnA⟩ : Config).maxPages = none := rfl
  have c3 : (⟨args300.maxRetries, args300.maxPages, 0, exA, hnA⟩ : Config).extract bodyA = [recU1, recU0] := by
    dsimp only
    exact exA_bodyA
  have c4 : (⟨args300.maxRetries, args300.maxPages, 0, exA, hnA⟩ : Config).hasNextPage bodyA = false := rfl
  have hao := attemptOnce_bodyA ⟨args300.maxRetries, args300.maxPages, 0, exA, hnA⟩
      ⟨0, [], [], [], 0⟩ or300 0 300 none rfl rfl rfl rfl c3 c4 rfl
  dsimp only at hao
  rw [dedup_300, insSort_300, List.nil_append] at hao
  have hal : attemptLoop ⟨args300.maxRetries, args300.maxPages, 0, exA, hnA⟩ or300
      (⟨args300.maxRetries, args300.maxPages, 0, exA, hnA⟩ : Config).maxRetries
      ⟨0, [], [], [], 0⟩ 0 = (.stopRun st300, 1, [.getPage 0, .commit cp300]) := by
    rw [c1]
    exact attemptLoop_firstDone _ or300 0 _ 0 _ _ _ hao (fun s' h => nomatch h)
  have hterm := runLoop_term ⟨args300.maxRetries, args300.maxPages, 0, exA, hnA⟩ or300 1
      ⟨0, [], [], [], 0⟩ 0 (.stopRun st300) 1 [.getPage 0, .commit cp300]
      (maxPagesReached_none _ _ c2) rfl hal (fun s' h => nomatch h)
  rw [hterm]
  dsimp only [AttemptRes.state]
  rw [finalCheckpoint_st300]
  rfl

/-! ### Claim-level helpers -/

theorem runMain_unfold (args : Args) (extract : String → List DocumentRecord)
    (hasNext : String → Bool) (loaded : Option Progress) (oracle : Nat → NetResult)
    (fuel : Nat) :
    runMain args extract hasNext loaded oracle fuel =
      match runLoop ⟨args.maxRetries, args.maxPages,
          (initRun args.reset args.startPage loaded).page, extract, hasNext⟩ oracle fuel
          (initRun args.reset args.startPage loaded) 0 with
      | none => none
      | some (st, _, evs) => some (st, evs ++ [.commit (finalCheckpoint st)]) := rfl

theorem mem_cons_le_maxFrom (a x : Int) (xs : List Int) (h : a ∈ x :: xs) :
    a ≤ maxFrom x xs := by
  rcases List.mem_cons.1 h with rfl | h
  · exact le_maxFrom_base a xs
  · exact le_maxFrom_mem a x xs h

theorem runMain_no_refetch (args : Args) (extract : String → List DocumentRecord)
    (hasNext : String → Bool) (p : Progress) (oracle : Nat → NetResult) (fuel : Nat)
    (st : RunState) (evs : List Event) (q : Int)
    (hrun : runMain args extract hasNext (some p) oracle fuel = some (st, evs))
    (hr : args.reset = false) (hsp : args.startPage = none)
    (hq : memI q p.pagesScraped = true) : Event.getPage q ∉ evs := by
  rw [runMain_unfold] at hrun
  rcases hrl : runLoop ⟨args.maxRetries, args.maxPages,
      (initRun args.reset args.startPage (some p)).page, extract, hasNext⟩ oracle fuel
      (initRun args.reset args.startPage (some p)) 0 with _ | ⟨st1, k1, evs1⟩
  · rw [hrl] at hrun
    exact absurd hrun (by simp)
  · rw [hrl] at hrun
    simp only [Option.some.injEq, Prod.mk.injEq] at hrun
    obtain ⟨h1, h2⟩ := hrun
    subst h2
    have hmem0 : memI q (initRun args.reset args.startPage (some p)).pagesScraped = true := by
      rw [hr, hsp]
      exact hq
    have hng := runLoop_no_getPage _ oracle fuel _ 0 st1 k1 evs1 q hrl hmem0
    intro hin
    rcases List.mem_append.1 hin with hin | hin
    · exact hng hin
    · simp at hin

/-! ### Claims -/

/-- C1 — Resume idempotence: re-running with the same search term and no
reset flag resumes at `lastPage + 1` from the loaded checkpoint; the
reset flag discards the checkpoint and starts at page 0 or the
explicitly given start page; and any page already in `pagesScraped` is
skipped without a network call, so a resumed run never re-fetches a
committed page (no `getPage` event for it anywhere in the trace). -/
theorem C1_resume_idempotence (p : Progress) (sa : Option Int) (l : Option Progress)
    (args : Args) (extract : String → List DocumentRecord) (hasNext : String → Bool)
    (oracle : Nat → NetResult) (fuel : Nat) (st : RunState) (evs : List Event)
    (hr : args.reset = false) (hsp : args.startPage = none)
    (hrun : runMain args extract hasNext (some p) oracle fuel = some (st, evs)) :
    initRun false none (some p) =
      (⟨p.lastPage + 1, p.pagesScraped, p.pagesScraped, p.allUrls, 0⟩ : RunState) ∧
    initRun true sa l = (⟨sa.getD 0, [], [], [], 0⟩ : RunState) ∧
    (∀ q, memI q p.pagesScraped = true → Event.getPage q ∉ evs) :=
  ⟨rfl, rfl,
    fun q hq => runMain_no_refetch args extract hasNext p oracle fuel st evs q hrun hr hsp hq⟩

/-- C1 witness: the concrete resumed run (loaded `last_page` 0, page 1
already scraped) starts fresh pages only, and its trace never fetches
page 1. -/
theorem C1_resume_idempotence_witness :
    argsA.reset = false ∧ argsA.startPage = none ∧ runA = some (stA, evsA) ∧
    memI 1 loadA.pagesScraped = true ∧ Event.getPage 1 ∉ evsA :=
  ⟨rfl, rfl, runA_eval, rfl,
    (C1_resume_idempotence loadA none none argsA exA hnA orA 3 stA evsA rfl rfl
      runA_eval).2.2 1 rfl⟩

/-- C2 — Dedup invariant: when the loaded item list carries no duplicate
URL, every checkpoint committed during the run (the final save
included) carries no duplicate URL; and a record whose URL is already
recorded is skipped by the merge rather than appended. -/
theorem C2_dedup_invariant (args : Args) (extract : String → List DocumentRecord)
    (hasNext : String → Bool) (loaded : Option Progress) (oracle : Nat → NetResult)
    (fuel : Nat) (st : RunState) (evs : List Event)
    (hrun : runMain args extract hasNext loaded oracle fuel = some (st, evs))
    (hnd : urlsNodup (initRun args.reset args.startPage loaded).allUrls = true) :
    (∀ c ∈ commitsOf evs, urlsNodup c.allUrls = true) ∧
    (∀ (acc : List DocumentRecord) (u : DocumentRecord) (us : List DocumentRecord),
      acc.any (fun x => x.url == u.url) = true →
      dedupAppend acc (u :: us) = dedupAppend acc us) := by
  constructor
  · rw [runMain_unfold] at hrun
    rcases hrl : runLoop ⟨args.maxRetries, args.maxPages,
        (initRun args.reset args.startPage loaded).page, extract, hasNext⟩ oracle fuel
        (initRun args.reset args.startPage loaded) 0 with _ | ⟨st1, k1, evs1⟩
    · rw [hrl] at hrun
      exact absurd hrun (by simp)
    · rw [hrl] at hrun
      simp only [Option.some.injEq, Prod.mk.injEq] at hrun
      obtain ⟨h1, h2⟩ := hrun
      subst h2
      have hinv := runLoop_nodup _ oracle fuel _ 0 st1 k1 evs1 hrl hnd
      intro c hcm
      rw [commitsOf_append] at hcm
      rcases List.mem_append.1 hcm with hcm | hcm
      · exact hinv.2 c hcm
      · have hc : c = finalCheckpoint st1 := by
          simpa [commitsOf] using hcm
        rw [hc]
        exact hinv.1
  · intro acc u us h
    exact dedupAppend_skip acc u us h

/-- C2 witness: the concrete resumed run re-extracts the already
recorded `u0` record; both commits of the run are free of duplicate
URLs. -/
theorem C2_dedup_invariant_witness :
    urlsNodup (initRun argsA.reset argsA.startPage (some loadA)).allUrls = true ∧
    (∀ c ∈ commitsOf evsA, urlsNodup c.allUrls = true) :=
  ⟨by decide,
    (C2_dedup_invariant argsA exA hnA (some loadA) orA 3 stA evsA runA_eval (by decide)).1⟩

/-- C3 (amended) — Redirect termination: for a response whose status is
in the script's redirect list `[301, 302, 303, 307, 308]`, the run
stops immediately with exactly one transport call for that page and no
sleep or retry, the page is not added to `pagesScraped`, and the
in-memory `pagesScraped` and item list are unchanged (the final save
then re-commits exactly those unchanged values). -/
theorem C3_redirect_termination (cfg : Config) (st : RunState) (k fuel : Nat)
    (oracle : Nat → NetResult) (status : Nat) (loc : Option String) (text : String)
    (ho : oracle k = .resp status loc text)
    (hred : isRedirectStatus status = true)
    (hmem : memI st.page st.pagesScraped = false)
    (hmax : maxPagesReached cfg st.page = false)
    (hmr : 0 < cfg.maxRetries) :
    runLoop cfg oracle (fuel + 1) st k = some (st, k + 1, [.getPage st.page]) ∧
    (finalCheckpoint st).allUrls = st.allUrls ∧
    (∀ x, x ∈ (finalCheckpoint st).pagesScraped ↔ x ∈ st.pagesScraped) := by
  have hone : attemptOnce cfg st oracle k = (.stopRun st, k + 1, [.getPage st.page]) := by
    unfold attemptOnce
    rw [ho]
    dsimp only
    rw [hred, ifBoolTrue]
  obtain ⟨n, hn⟩ : ∃ n, cfg.maxRetries = n + 1 := ⟨cfg.maxRetries - 1, by omega⟩
  have hal : attemptLoop cfg oracle cfg.maxRetries st k =
      (.stopRun st, k + 1, [.getPage st.page]) := by
    rw [hn]
    exact attemptLoop_firstDone cfg oracle n st k _ _ _ hone (fun s' h => nomatch h)
  exact ⟨runLoop_term cfg oracle fuel st k (.stopRun st) (k + 1) [.getPage st.page]
      hmax hmem hal (fun s' h => nomatch h),
    rfl, fun x => mem_insSort x st.pagesScraped⟩

/-- C3 witness: a 302 response on a fresh run stops it after a single
fetch event, leaving the state untouched. -/
theorem C3_redirect_termination_witness :
    or302 0 = .resp 302 (some "login") "" ∧ isRedirectStatus 302 = true ∧
    runLoop cfg3 or302 1 st0run 0 = some (st0run, 1, [.getPage 0]) :=
  ⟨rfl, rfl,
    (C3_redirect_termination cfg3 st0run 0 0 or302 302 (some "login") "" rfl rfl rfl rfl
      (by decide)).1⟩

/-- C3 counterexample to the claim as stated: status 300 is a 3xx code,
but the script checks only `[301, 302, 303, 307, 308]`; with a
full-size body the page is processed as a success, committed, and added
to `pagesScraped` instead of terminating as `Redirected`. -/
theorem C3_redirect_termination_counterexample :
    or300 0 = .resp 300 none bodyA ∧ (300 : Nat) / 100 = 3 ∧
    isRedirectStatus 300 = false ∧
    run300 = some (st300, evs300) ∧ memI 0 st300.pagesScraped = true :=
  ⟨rfl, rfl, rfl, run300_eval, rfl⟩

/-- Helper: `storePhase` with an empty item list always advances to the
next page (never the clean-end stop), keeping the counter it was
given. -/
theorem storePhase_advance_empty (cfg : Config) (st : RunState) (k : Nat) (text : String)
    (pre : List Event) :
    (storePhase cfg st k text [] pre).1 =
      .nextPage ((storePhase cfg st k text [] pre).1).state ∧
    ((storePhase cfg st k text [] pre).1).state.page = st.page + 1 ∧
    ((storePhase cfg st k text [] pre).1).state.consecutiveEmpty = st.consecutiveEmpty := by
  unfold storePhase
  split
  · exact ⟨rfl, rfl, rfl⟩
  · rw [show (!cfg.hasNextPage text && !([] : List DocumentRecord).isEmpty) = false from by
      rw [show (!([] : List DocumentRecord).isEmpty) = false from rfl, Bool.and_false]]
    rw [ifBoolFalse]
    exact ⟨rfl, rfl, rfl⟩

/-- Helper: `storePhase` never touches the consecutive-empty counter. -/
theorem storePhase_ce (cfg : Config) (st : RunState) (k : Nat) (text : String)
    (items : List DocumentRecord) (pre : List Event) :
    ((storePhase cfg st k text items pre).1).state.consecutiveEmpty =
      st.consecutiveEmpty := by
  unfold storePhase
  split
  · rfl
  · split <;> rfl

/-- C4 — Empty-page tolerance: a Success outcome with zero extracted
items increments the consecutive-empties counter; at a prior count of 1
the counter reaches 2 and the run stops; a first empty page (counter 0)
does not stop the run — the loop advances to the next page; and every
Success outcome with at least one item resets the counter to 0. -/
theorem C4_empty_page_tolerance (cfg : Config) (st : RunState) (k : Nat) (text : String) :
    (cfg.extract text = [] → st.consecutiveEmpty = 0 →
      ((processBody cfg st k text).1 = .nextPage ((processBody cfg st k text).1).state ∧
       ((processBody cfg st k text).1).state.consecutiveEmpty = 1 ∧
       ((processBody cfg st k text).1).state.page = st.page + 1)) ∧
    (cfg.extract text = [] → st.consecutiveEmpty = 1 →
      processBody cfg st k text = (.stopRun { st with consecutiveEmpty := 2 }, k,
        if text.length > 50000 then [.writeDebug st.page text] else [])) ∧
    (cfg.extract text ≠ [] → ((processBody cfg st k text).1).state.consecutiveEmpty = 0) ∧
    (cfg.extract text = [] →
      ((processBody cfg st k text).1).state.consecutiveEmpty = st.consecutiveEmpty + 1) := by
  refine ⟨fun he hce => ?_, fun he hce => ?_, fun hne => ?_, fun he => ?_⟩
  · unfold processBody
    dsimp only
    rw [he, show ([] : List DocumentRecord).isEmpty = true from rfl, ifBoolTrue, hce]
    rw [if_neg (show ¬ ({ st with consecutiveEmpty := 0 + 1 } : RunState).consecutiveEmpty ≥ 2 from
      by dsimp only; omega)]
    refine ⟨(storePhase_advance_empty cfg _ k text _).1, ?_, (storePhase_advance_empty cfg _ k text _).2.1⟩
    rw [storePhase_ce]
  · unfold processBody
    dsimp only
    rw [he, show ([] : List DocumentRecord).isEmpty = true from rfl, ifBoolTrue, hce]
    rw [if_pos (show ({ st with consecutiveEmpty := 1 + 1 } : RunState).consecutiveEmpty ≥ 2 from
      by dsimp only; omega)]
  · unfold processBody
    dsimp only
    rcases hE : cfg.extract text with _ | ⟨u, us⟩
    · exact absurd hE hne
    · rw [show ((u :: us).isEmpty) = false from rfl, ifBoolFalse]
      exact storePhase_ce cfg _ k text _ []
  · unfold processBody
    dsimp only
    rw [he, show ([] : List DocumentRecord).isEmpty = true from rfl, ifBoolTrue]
    split
    · rfl
    · rw [storePhase_ce]

/-- C4 witness: with an extractor that finds nothing, a first empty page
advances with counter 1, and a second consecutive empty page stops the
run with counter 2. -/
theorem C4_empty_page_tolerance_witness :
    ((processBody cfgE st0run 0 "x").1).state.consecutiveEmpty = 1 ∧
    ((processBody cfgE st0run 0 "x").1).state.page = 1 ∧
    processBody cfgE ⟨0, [], [], [], 1⟩ 0 "x" = (.stopRun ⟨0, [], [], [], 2⟩, 0, []) := by
  have h1 := (C4_empty_page_tolerance cfgE st0run 0 "x").1 rfl rfl
  have h2 := (C4_empty_page_tolerance cfgE ⟨0, [], [], [], 1⟩ 0 "x").2.1 rfl rfl
  refine ⟨h1.2.1, h1.2.2, ?_⟩
  rw [h2, if_neg (by decide)]

/-- C5 — Challenge round-trip: for a challenge body whose embedded seed
is `S` and whose token parses, the parser yields exactly
`(token, S + FIXED_OFFSET)` with `FIXED_OFFSET = 902645594`; the
solver's verification POST carries exactly that token and derived
value; and when the replayed GET returns real content (body over the
threshold) the subsequent classification runs on the replayed body, not
the original challenge body. -/
theorem C5_challenge_roundtrip (html : String) (S : Nat) (tok : String)
    (oracle : Nat → NetResult) (k : Nat) (cfg : Config) (st : RunState)
    (s1 s2 : Nat) (l1 l2 : Option String) (t1 B : String)
    (h1 : containsSub "_sec/verify".data html.data = true)
    (h2 : containsSub "bm-verify".data html.data = true)
    (hv : findVarI html.data = some S)
    (hb : findBm html.data = some tok)
    (ho1 : oracle k = .resp s1 l1 t1)
    (ho2 : oracle (k + 1) = .resp s2 l2 B) :
    FIXED_OFFSET = 902645594 ∧
    parse_akamai_interstitial html = some (tok, S + FIXED_OFFSET) ∧
    solve_akamai_interstitial html oracle k =
      ((B, decide (B.length > 10000)), k + 2,
        [.verifyPost tok (S + FIXED_OFFSET), .replayGet]) ∧
    (html.length < 10000 → B.length > 10000 →
      afterStatus cfg st oracle k html =
        ((processBody cfg st (k + 2) B).1, (processBody cfg st (k + 2) B).2.1,
          .verifyPost tok (S + FIXED_OFFSET) :: .replayGet ::
            (processBody cfg st (k + 2) B).2.2)) := by
  have hp : parse_akamai_interstitial html = some (tok, S + FIXED_OFFSET) := by
    unfold parse_akamai_interstitial
    rw [h1, h2, show (true && true) = true from rfl, ifBoolTrue, hv, hb]
  have hs : solve_akamai_interstitial html oracle k =
      ((B, decide (B.length > 10000)), k + 2,
        [.verifyPost tok (S + FIXED_OFFSET), .replayGet]) := by
    unfold solve_akamai_interstitial
    rw [hp, ho1, ho2]
  refine ⟨rfl, hp, hs, fun hlen hB => ?_⟩
  unfold afterStatus
  rw [hp, show (some (tok, S + FIXED_OFFSET)).isSome = true from rfl,
      show decide (html.length < 10000) = true from decide_eq_true hlen,
      show (true && true) = true from rfl, ifBoolTrue, hs,
      show decide (B.length > 10000) = true from decide_eq_true hB]
  dsimp only
  rw [sizeGate_big cfg st (k + 2) B (by omega)]
  rfl

/-- C5 witness: the canned challenge with seed 7 and token `tok1`; the
POSTed payload carries `7 + 902645594` and the solved replay returns
the full-size body. -/
theorem C5_challenge_roundtrip_witness :
    findVarI chW.data = some 7 ∧ findBm chW.data = some "tok1" ∧
    parse_akamai_interstitial chW = some ("tok1", 7 + FIXED_OFFSET) ∧
    solve_akamai_interstitial chW orC5 0 =
      ((bodyA, true), 2, [.verifyPost "tok1" (7 + FIXED_OFFSET), .replayGet]) := by
  have h := C5_challenge_roundtrip chW 7 "tok1" orC5 0 cfg3 st0run 200 200 none none
    "ok" bodyA (by decide) (by decide) (by decide) (by decide) rfl rfl
  refine ⟨by decide, by decide, h.2.1, ?_⟩
  rw [h.2.2.1, show decide (bodyA.length > 10000) = true from by rw [bodyA_length]; rfl]

/-- C6 — Retry exhaustion: every rate-limited (503 or `unavailable`
body) or timeout outcome sleeps the unavailable wait and retries the
same page, consuming one attempt; after `maxRetries` consecutive such
outcomes the attempt loop ends in a fatal stop for the whole run, the
page loop terminates, and the page was never added to `pagesScraped`
(the state is returned unchanged). -/
theorem C6_retry_exhaustion (cfg : Config) (st : RunState) (oracle : Nat → NetResult)
    (k fuel : Nat)
    (hn : ∀ i, i < cfg.maxRetries → isRetryNet (oracle (k + i)) = true)
    (hmem : memI st.page st.pagesScraped = false)
    (hmax : maxPagesReached cfg st.page = false) :
    attemptLoop cfg oracle cfg.maxRetries st k =
      (.fatalRun st, k + cfg.maxRetries, retryTrace st.page cfg.maxRetries) ∧
    runLoop cfg oracle (fuel + 1) st k =
      some (st, k + cfg.maxRetries, retryTrace st.page cfg.maxRetries) := by
  have hone : ∀ (kk : Nat), isRetryNet (oracle kk) = true →
      attemptOnce cfg st oracle kk = (.retry st, kk + 1, [.getPage st.page, .sleepUnavailable]) := by
    intro kk h
    unfold attemptOnce
    rcases ho : oracle kk with ⟨status, loc, text⟩ | msg
    · rw [ho] at h
      unfold isRetryNet at h
      dsimp only at h
      rw [Bool.and_eq_true] at h
      obtain ⟨hnr, hcond⟩ := h
      dsimp only
      rw [Bool.not_eq_true'] at hnr
      rw [hnr, ifBoolFalse, hcond, ifBoolTrue]
    · rw [ho] at h
      unfold isRetryNet at h
      dsimp only at h
      dsimp only
      rw [h, ifBoolTrue]
  have hal : ∀ (n kk : Nat), (∀ i, i < n → isRetryNet (oracle (kk + i)) = true) →
      attemptLoop cfg oracle n st kk = (.fatalRun st, kk + n, retryTrace st.page n) := by
    intro n
    induction n with
    | zero => intro kk _; rfl
    | succ m ih =>
      intro kk h
      unfold attemptLoop
      rw [hone kk (by simpa using h 0 (by omega))]
      dsimp only
      rw [ih (kk + 1) (fun i hi => by
        have hh := h (i + 1) (by omega)
        rwa [show kk + (i + 1) = kk + 1 + i from by omega] at hh)]
      have he : kk + 1 + m = kk + (m + 1) := by omega
      rw [he]
      rfl
  have hA := hal cfg.maxRetries k hn
  exact ⟨hA, runLoop_term cfg oracle fuel st k _ _ _ hmax hmem hA (fun s' h => nomatch h)⟩

/-- C6 witness: two consecutive 503 responses with a retry budget of 2
exhaust the attempts; the run stops fatally with page 0 unscraped and
the trace shows a sleep after each fetch. -/
theorem C6_retry_exhaustion_witness :
    (∀ i, i < cfg6.maxRetries → isRetryNet (or503 (0 + i)) = true) ∧
    runLoop cfg6 or503 1 st0run 0 = some (st0run, 0 + cfg6.maxRetries, retryTrace 0 2) ∧
    retryTrace 0 2 = [.getPage 0, .sleepUnavailable, .getPage 0, .sleepUnavailable] := by
  have hn : ∀ i, i < cfg6.maxRetries → isRetryNet (or503 (0 + i)) = true := fun i _ => rfl
  exact ⟨hn, (C6_retry_exhaustion cfg6 st0run or503 0 0 hn rfl rfl).2, rfl⟩

/-- C7 (amended) — Solver failure degradation: the solver is total and
returns `solved = false` in all three failure cases; when the marker or
seed cannot be parsed, or when the verification POST or the replay GET
raises, it returns the original challenge body unchanged; but when the
replay succeeds with a body at most 10000 bytes it returns the replayed
body (not the original) together with `solved = false`. -/
theorem C7_solver_failure (challenge : String) (oracle : Nat → NetResult) (k : Nat)
    (m1 m2 : String) (s1 s2 : Nat) (l1 l2 : Option String) (t1 B : String) :
    (parse_akamai_interstitial challenge = none →
      solve_akamai_interstitial challenge oracle k = ((challenge, false), k, [])) ∧
    (∀ bm powj, parse_akamai_interstitial challenge = some (bm, powj) →
      ((oracle k = .exc m1 →
        solve_akamai_interstitial challenge oracle k =
          ((challenge, false), k + 1, [.verifyPost bm powj])) ∧
       (oracle k = .resp s1 l1 t1 → oracle (k + 1) = .exc m2 →
        solve_akamai_interstitial challenge oracle k =
          ((challenge, false), k + 2, [.verifyPost bm powj, .replayGet])) ∧
       (oracle k = .resp s1 l1 t1 → oracle (k + 1) = .resp s2 l2 B → B.length ≤ 10000 →
        solve_akamai_interstitial challenge oracle k =
          ((B, false), k + 2, [.verifyPost bm powj, .replayGet])))) := by
  constructor
  · intro hp
    unfold solve_akamai_interstitial
    rw [hp]
  · intro bm powj hp
    refine ⟨fun ho => ?_, fun ho1 ho2 => ?_, fun ho1 ho2 hB => ?_⟩
    · unfold solve_akamai_interstitial
      rw [hp, ho]
    · unfold solve_akamai_interstitial
      rw [hp, ho1, ho2]
    · unfold solve_akamai_interstitial
      rw [hp, ho1, ho2]
      dsimp only
      rw [show decide (B.length > 10000) = false from decide_eq_false (by omega)]

/-- C7 counterexample to the claim as stated: with a parsable challenge
and a replay that returns the 4-byte body `tiny`, the solver returns
`solved = false` together with the replayed body `tiny`, not the
original challenge body. -/
theorem C7_solver_failure_counterexample :
    parse_akamai_interstitial chW = some ("tok1", 7 + FIXED_OFFSET) ∧
    orTiny 1 = .resp 200 none "tiny" ∧
    solve_akamai_interstitial chW orTiny 0 =
      (("tiny", false), 2, [.verifyPost "tok1" (7 + FIXED_OFFSET), .replayGet]) ∧
    "tiny" ≠ chW := by
  refine ⟨by decide, rfl, by decide, by decide⟩

/-- C7 witness: an unparsable body is returned unchanged without any
network call, and the replay-too-small case returns the replayed
body with `solved = false`. -/
theorem C7_solver_failure_witness :
    parse_akamai_interstitial "hello" = none ∧
    solve_akamai_interstitial "hello" orTiny 0 = (("hello", false), 0, []) ∧
    solve_akamai_interstitial chW orTiny 0 =
      (("tiny", false), 2, [.verifyPost "tok1" (7 + FIXED_OFFSET), .replayGet]) := by
  refine ⟨by decide,
    (C7_solver_failure "hello" orTiny 0 "x" "x" 0 0 none none "" "").1 (by decide), ?_⟩
  exact ((C7_solver_failure chW orTiny 0 "x" "x" 200 200 none none "tiny" "tiny").2
    "tok1" (7 + FIXED_OFFSET) (by decide)).2.2 rfl rfl (by decide)

/-- C8 — Monotonic commit: across the sequence of checkpoint commits of
a single run (the final save after the loop included), the
`pagesScraped` set only grows (every page in an earlier committed
snapshot belongs to every later one) and the committed `last_page`
value is non-decreasing. -/
theorem C8_monotonic_commit (args : Args) (extract : String → List DocumentRecord)
    (hasNext : String → Bool) (loaded : Option Progress) (oracle : Nat → NetResult)
    (fuel : Nat) (st : RunState) (evs : List Event)
    (hrun : runMain args extract hasNext loaded oracle fuel = some (st, evs)) :
    List.Pairwise cpLE (commitsOf evs) := by
  rw [runMain_unfold] at hrun
  rcases hrl : runLoop ⟨args.maxRetries, args.maxPages,
      (initRun args.reset args.startPage loaded).page, extract, hasNext⟩ oracle fuel
      (initRun args.reset args.startPage loaded) 0 with _ | ⟨st1, k1, evs1⟩
  · rw [hrl] at hrun
    exact absurd hrun (by simp)
  · rw [hrl] at hrun
    simp only [Option.some.injEq, Prod.mk.injEq] at hrun
    obtain ⟨h1, h2⟩ := hrun
    subst h2
    have hrc := runLoop_commits _ oracle fuel _ 0 st1 k1 evs1 hrl
    rw [commitsOf_append,
        show commitsOf [Event.commit (finalCheckpoint st1)] = [finalCheckpoint st1] from rfl]
    refine List.pairwise_append.2 ⟨hrc.2.2.1, List.pairwise_singleton _ _, ?_⟩
    intro c hc f hf
    rcases List.mem_singleton.1 hf with rfl
    obtain ⟨b1, b2, b3, b4⟩ := hrc.2.2.2 c hc
    constructor
    · intro x hx
      exact (mem_insSort x _).2 (b2 x hx)
    · have hmem : c.lastPage ∈ st1.pagesScraped := b2 _ b4
      rcases hps : st1.pagesScraped with _ | ⟨x, xs⟩
      · rw [hps] at hmem
        simp at hmem
      · rw [hps] at hmem
        have hfc : (finalCheckpoint st1).lastPage = maxFrom x xs := by
          unfold finalCheckpoint
          rw [hps]
        rw [hfc]
        exact mem_cons_le_maxFrom _ x xs hmem

/-- C8 witness: the commits of the concrete resumed run are pairwise
related — sets only grow, `last_page` never decreases. -/
theorem C8_monotonic_commit_witness :
    runA = some (stA, evsA) ∧ List.Pairwise cpLE (commitsOf evsA) :=
  ⟨runA_eval, C8_monotonic_commit argsA exA hnA (some loadA) orA 3 stA evsA runA_eval⟩

/-- C9 (implicit) — Empty pages are committed: a Success outcome with
zero items that does not trigger the two-consecutive-empties stop (the
counter was 0) is appended to `pagesScraped`, committed with
`last_page` set to that page and the item list unchanged, and the loop
advances; and on a later resume any page recorded in the loaded
checkpoint (such as that empty page) is skipped without a fetch. -/
theorem C9_empty_page_commit (cfg : Config) (st : RunState) (k : Nat) (text : String)
    (p : Progress) (args : Args) (extract : String → List DocumentRecord)
    (hasNext : String → Bool) (oracle : Nat → NetResult) (fuel : Nat) (st' : RunState)
    (evs : List Event) (q : Int)
    (hempty : cfg.extract text = [])
    (hce : st.consecutiveEmpty = 0)
    (hdup : memI st.page st.pageNumbers = false) :
    processBody cfg st k text =
      (.nextPage ⟨st.page + 1, st.pagesScraped ++ [st.page], st.pageNumbers ++ [st.page],
          st.allUrls, 1⟩, k,
        (if text.length > 50000 then [.writeDebug st.page text] else []) ++
          [.commit ⟨st.page, insSort (st.pagesScraped ++ [st.page]), st.allUrls⟩,
           .sleepDelay]) ∧
    (runMain args extract hasNext (some p) oracle fuel = some (st', evs) →
      args.reset = false → args.startPage = none → memI q p.pagesScraped = true →
      Event.getPage q ∉ evs) := by
  constructor
  · unfold processBody
    dsimp only
    rw [hempty, show ([] : List DocumentRecord).isEmpty = true from rfl, ifBoolTrue, hce]
    rw [if_neg (show ¬ ({ st with consecutiveEmpty := 0 + 1 } : RunState).consecutiveEmpty ≥ 2 from
      by dsimp only; omega)]
    unfold storePhase
    dsimp only
    rw [hdup, ifBoolFalse]
    rw [show (!cfg.hasNextPage text && !([] : List DocumentRecord).isEmpty) = false from by
      rw [show (!([] : List DocumentRecord).isEmpty) = false from rfl, Bool.and_false]]
    rw [ifBoolFalse]
    rfl
  · intro hrun hr hsp hq
    exact runMain_no_refetch args extract hasNext p oracle fuel st' evs q hrun hr hsp hq

/-- C9 witness: a concrete first-empty page is committed with
`last_page` 0 and the loop advances to page 1; and the concrete resumed
run never fetches the already committed page 1. -/
theorem C9_empty_page_commit_witness :
    processBody cfgE st0run 0 "x" =
      (.nextPage ⟨1, [0], [0], [], 1⟩, 0, [.commit ⟨0, [0], []⟩, .sleepDelay]) ∧
    memI 1 loadA.pagesScraped = true ∧ Event.getPage 1 ∉ evsA := by
  refine ⟨?_, rfl, ?_⟩
  · have h := (C9_empty_page_commit cfgE st0run 0 "x" loadA argsA exA hnA orA 3 stA evsA 1
      rfl rfl rfl).1
    rw [h, if_neg (by decide)]
    norm_num [insSort, insertSorted, st0run]
  · exact (C9_empty_page_commit cfgE st0run 0 "x" loadA argsA exA hnA orA 3 stA evsA 1
      rfl rfl rfl).2 runA_eval rfl rfl rfl

/-- C10 (implicit) — Checkpoint key normalization: the storage key is
the search term uppercased with every space replaced by an underscore;
any two search terms equal after this normalization use the same
progress, JSONL, and debug paths — one checkpoint per normalized key,
not per distinct search-term string (e.g. `foo bar` and `FOO_BAR`
collide). -/
theorem C10_key_normalization (t1 t2 dir : String) (pg : Int)
    (h : output_filename t1 = output_filename t2) :
    get_progress_path dir (output_filename t1) = get_progress_path dir (output_filename t2) ∧
    jsonl_path dir (output_filename t1) = jsonl_path dir (output_filename t2) ∧
    debug_page_path dir pg (output_filename t1) =
      debug_page_path dir pg (output_filename t2) ∧
    output_filename "foo bar" = "FOO_BAR" ∧
    output_filename "FOO_BAR" = "FOO_BAR" ∧
    "foo bar" ≠ "FOO_BAR" := by
  refine ⟨by rw [h], by rw [h], by rw [h], by decide, by decide, by decide⟩

/-- C10 witness: the distinct terms `foo bar` and `FOO_BAR` normalize to
the same key and hence share the same progress file. -/
theorem C10_key_normalization_witness :
    output_filename "foo bar" = output_filename "FOO_BAR" ∧
    get_progress_path "output" (output_filename "foo bar") =
      get_progress_path "output" (output_filename "FOO_BAR") :=
  ⟨by decide, (C10_key_normalization "foo bar" "FOO_BAR" "output" 0 (by decide)).1⟩
